import Mathlib

set_option maxRecDepth 100000

/-!
Verification of the LLM-AL counterfactual filtering pipeline.

Shallow embedding of the decision logic of the repository:

* `src/app/annotate/llm_annotator.py` — `_strict_json`, `annotate_label`
* `src/app/filter/variation_theory_filter.py` — `_stage_c1_heuristic_filter`,
  `_combined_filter`, `_parse_json_response`, `apply_three_stage_filter`
* `src/app/services/demos/select_top_k.py` — `main`'s selection loop
* `src/app/patterns/neurosymbolic_patterns.py` — `learn_patterns_for_label`,
  `learn_all_patterns`

Texts are `List Char` (Python `str`), floats are `ℚ` (exact rationals in
place of IEEE doubles; every constant in the code is decimal), and the
blocking LLM round trip is an explicit `Except`-valued argument: `.error`
is a raised exception, `.ok` the raw response text.  `json.loads` /
`json.dumps` are modelled by an executable JSON parser and printer over a
first-order JSON syntax tree: objects keep Python-dict semantics (first
insertion position, later duplicate keys overwrite), numbers keep their
decimal digits verbatim (exponent notation is outside the model), and the
printer uses compact separators with non-ASCII characters printed
literally.
-/

/-! ## Character and list utilities (Python `str` helpers) -/

/-- The whitespace characters of Python's `str.strip` / `str.split`
(ASCII subset). -/
def isPySpace (c : Char) : Bool :=
  c = ' ' || c = '\t' || c = '\n' || c = '\r' || c = '\x0b' || c = '\x0c'

/-- Python `str.strip()`. -/
def pyStrip (s : List Char) : List Char :=
  ((s.dropWhile isPySpace).reverse.dropWhile isPySpace).reverse

/-- Python `str.split()` (split on whitespace runs, dropping empties). -/
def pySplit (s : List Char) : List (List Char) :=
  (s.foldr
    (fun c acc =>
      if isPySpace c then [] :: acc
      else
        match acc with
        | [] => [[c]]
        | w :: ws => (c :: w) :: ws)
    []).filter (fun w => ¬ w.isEmpty)

/-- ASCII lowercasing, as Python `str.lower` acts on ASCII letters. -/
def lowerChar (c : Char) : Char :=
  if 'A' ≤ c ∧ c ≤ 'Z' then Char.ofNat (c.toNat + 32) else c

/-- First index where `p` holds (`str.find` for a single character). -/
def findIdxC (p : Char → Bool) : List Char → Option Nat
  | [] => none
  | c :: r => if p c then some 0 else (findIdxC p r).map (· + 1)

/-- Last index where `p` holds (`str.rfind` for a single character). -/
def rfindIdxC (p : Char → Bool) (s : List Char) : Option Nat :=
  match findIdxC p s.reverse with
  | some k => some (s.length - 1 - k)
  | none => none

/-- First index of substring `sub` in `s` (Python `str.find`). -/
def findSubIdx (sub : List Char) : List Char → Option Nat
  | [] => if sub.isEmpty then some 0 else none
  | c :: r => if sub.isPrefixOf (c :: r) then some 0 else (findSubIdx sub r).map (· + 1)

/-- Python `sub in s`. -/
def containsSub (s sub : List Char) : Bool :=
  (findSubIdx sub s).isSome

/-! ## JSON values

A first-order syntax tree for the JSON the pipeline exchanges with the
model.  `num` keeps the decimal spelling (sign, integer digits, optional
fraction digits); `obj` keeps members in Python-dict order. -/

mutual
inductive Json where
  | null : Json
  | bool (b : Bool) : Json
  | num (neg : Bool) (ip : List Char) (fp : Option (List Char)) : Json
  | str (cs : List Char) : Json
  | arr (xs : JsonArr) : Json
  | obj (kvs : JsonObj) : Json
inductive JsonArr where
  | nil : JsonArr
  | cons (v : Json) (rest : JsonArr) : JsonArr
inductive JsonObj where
  | nil : JsonObj
  | cons (k : List Char) (v : Json) (rest : JsonObj) : JsonObj
end

/-- Does the object have a member named `k`? -/
def objHasKey : JsonObj → List Char → Bool
  | .nil, _ => false
  | .cons k0 _ rest, k => k0 = k || objHasKey rest k

/-- Python-dict insertion: overwrite in place if the key exists, else
append. -/
def objUpsert : JsonObj → List Char → Json → JsonObj
  | .nil, k, v => .cons k v .nil
  | .cons k0 v0 rest, k, v =>
    if k0 = k then .cons k0 v rest else .cons k0 v0 (objUpsert rest k v)

/-- Member lookup (Python `dict.get`). -/
def objLookup : JsonObj → List Char → Option Json
  | .nil, _ => none
  | .cons k0 v0 rest, k => if k0 = k then some v0 else objLookup rest k

/-- Append an element at the end of an array. -/
def arrSnoc : JsonArr → Json → JsonArr
  | .nil, v => .cons v .nil
  | .cons v0 rest, v => .cons v0 (arrSnoc rest v)

def arrIsNil : JsonArr → Bool
  | .nil => true
  | .cons _ _ => false

def objIsNil : JsonObj → Bool
  | .nil => true
  | .cons _ _ _ => false

/-- Concatenation of object member lists. -/
def objAppend : JsonObj → JsonObj → JsonObj
  | .nil, ys => ys
  | .cons k v rest, ys => .cons k v (objAppend rest ys)

/-! ## JSON parsing (`json.loads`) -/

/-- JSON's inter-token whitespace (as in CPython's `json` module). -/
def isJsonWs (c : Char) : Bool :=
  c = ' ' || c = '\t' || c = '\n' || c = '\r'

/-- Hexadecimal digit value. -/
def hexVal (c : Char) : Option Nat :=
  if '0' ≤ c ∧ c ≤ '9' then some (c.toNat - 48)
  else if 'a' ≤ c ∧ c ≤ 'f' then some (c.toNat - 87)
  else if 'A' ≤ c ∧ c ≤ 'F' then some (c.toNat - 55)
  else none

/-- The single-character JSON escapes. -/
def escChar (e : Char) : Option Char :=
  if e = '"' then some '"'
  else if e = '\\' then some '\\'
  else if e = '/' then some '/'
  else if e = 'b' then some '\x08'
  else if e = 'f' then some '\x0c'
  else if e = 'n' then some '\n'
  else if e = 'r' then some '\r'
  else if e = 't' then some '\t'
  else none

/-- Body of a JSON string, after its opening quote: returns the decoded
characters and the text after the closing quote.  Strict mode: raw
control characters are rejected; `\uXXXX` escapes are decoded (lone
surrogates are outside the model). -/
def parseStrBody : List Char → Option (List Char × List Char)
  | [] => none
  | c :: rest =>
    if c = '"' then some ([], rest)
    else if c = '\\' then
      match rest with
      | [] => none
      | e :: rest2 =>
        if e = 'u' then
          match rest2 with
          | a :: b :: c2 :: d :: rest3 =>
            match hexVal a, hexVal b, hexVal c2, hexVal d with
            | some x, some y, some z, some w =>
              let n := ((x * 16 + y) * 16 + z) * 16 + w
              if n < 0xd800 then
                (parseStrBody rest3).map (fun pr => (Char.ofNat n :: pr.1, pr.2))
              else if 0xdfff < n then
                (parseStrBody rest3).map (fun pr => (Char.ofNat n :: pr.1, pr.2))
              else none
            | _, _, _, _ => none
          | _ => none
        else
          match escChar e with
          | some ch => (parseStrBody rest2).map (fun pr => (ch :: pr.1, pr.2))
          | none => none
    else if c.toNat < 0x20 then none
    else (parseStrBody rest).map (fun pr => (c :: pr.1, pr.2))

/-- Split a maximal run of decimal digits. -/
def parseDigits (s : List Char) : List Char × List Char :=
  (s.takeWhile Char.isDigit, s.dropWhile Char.isDigit)

/-- A JSON number (decimal integer or fraction; exponent spellings are
outside the model). -/
def parseNumCore (neg : Bool) (s1 : List Char) : Option (Json × List Char) :=
  let ip := (parseDigits s1).1
  let s2 := (parseDigits s1).2
  if ip.isEmpty then none
  else if ip.head? = some '0' ∧ ip.length ≠ 1 then none
  else if s2.head? = some '.' then
    let fp := (parseDigits s2.tail).1
    let s4 := (parseDigits s2.tail).2
    if fp.isEmpty then none else some (.num neg ip (some fp), s4)
  else some (.num neg ip none, s2)

def parseNum (s : List Char) : Option (Json × List Char) :=
  if s.head? = some '-' then parseNumCore true s.tail else parseNumCore false s

mutual
/-- One JSON value, fuelled recursive descent. -/
def parseVal : Nat → List Char → Option (Json × List Char)
  | 0, _ => none
  | Nat.succ fuel, s =>
    let t := s.dropWhile isJsonWs
    if ['n', 'u', 'l', 'l'].isPrefixOf t then some (.null, t.drop 4)
    else if ['t', 'r', 'u', 'e'].isPrefixOf t then some (.bool true, t.drop 4)
    else if ['f', 'a', 'l', 's', 'e'].isPrefixOf t then some (.bool false, t.drop 5)
    else if t.head? = some '"' then
      (parseStrBody (t.drop 1)).map (fun pr => (.str pr.1, pr.2))
    else if t.head? = some '{' then parseMembers fuel (t.drop 1) .nil
    else if t.head? = some '[' then parseElems fuel (t.drop 1) .nil
    else parseNum t

/-- Members of a JSON object, after `{` or after a member's comma. -/
def parseMembers : Nat → List Char → JsonObj → Option (Json × List Char)
  | 0, _, _ => none
  | Nat.succ fuel, s, acc =>
    let t := s.dropWhile isJsonWs
    if t.head? = some '}' then
      if objIsNil acc then some (.obj .nil, t.drop 1) else none
    else if t.head? = some '"' then
      match parseStrBody (t.drop 1) with
      | none => none
      | some (k, r1) =>
        let t1 := r1.dropWhile isJsonWs
        if t1.head? = some ':' then
          match parseVal fuel (t1.drop 1) with
          | none => none
          | some (v, r3) =>
            let acc1 := objUpsert acc k v
            let t2 := r3.dropWhile isJsonWs
            if t2.head? = some ',' then parseMembers fuel (t2.drop 1) acc1
            else if t2.head? = some '}' then some (.obj acc1, t2.drop 1)
            else none
        else none
    else none

/-- Elements of a JSON array, after `[` or after an element's comma. -/
def parseElems : Nat → List Char → JsonArr → Option (Json × List Char)
  | 0, _, _ => none
  | Nat.succ fuel, s, acc =>
    let t := s.dropWhile isJsonWs
    if t.head? = some ']' then
      if arrIsNil acc then some (.arr .nil, t.drop 1) else none
    else
      match parseVal fuel t with
      | none => none
      | some (v, r1) =>
        let acc1 := arrSnoc acc v
        let t1 := r1.dropWhile isJsonWs
        if t1.head? = some ',' then parseElems fuel (t1.drop 1) acc1
        else if t1.head? = some ']' then some (.arr acc1, t1.drop 1)
        else none
end

/-- `json.loads`: one value, with only whitespace after it. -/
def jsonLoads (s : List Char) : Option Json :=
  match parseVal (s.length + 1) s with
  | some (v, rest) => if (rest.dropWhile isJsonWs).isEmpty then some v else none
  | none => none

/-! ## JSON printing (`json.dumps`, compact separators) -/

/-- Lowercase hexadecimal digit. -/
def hexDigit (n : Nat) : Char :=
  if n < 10 then Char.ofNat (48 + n) else Char.ofNat (87 + n)

/-- Escape one character of a JSON string. -/
def escapeChar (c : Char) : List Char :=
  if c = '"' then ['\\', '"']
  else if c = '\\' then ['\\', '\\']
  else if c = '\n' then ['\\', 'n']
  else if c = '\t' then ['\\', 't']
  else if c = '\r' then ['\\', 'r']
  else if c = '\x08' then ['\\', 'b']
  else if c = '\x0c' then ['\\', 'f']
  else if c.toNat < 0x20 then
    ['\\', 'u', '0', '0', hexDigit (c.toNat / 16), hexDigit (c.toNat % 16)]
  else [c]

/-- Escaped body of a JSON string. -/
def escBody : List Char → List Char
  | [] => []
  | c :: rest => escapeChar c ++ escBody rest

/-- A quoted JSON string. -/
def escStr (cs : List Char) : List Char :=
  '"' :: escBody cs ++ ['"']

mutual
/-- `json.dumps` with compact separators. -/
def printJson : Json → List Char
  | .null => ['n', 'u', 'l', 'l']
  | .bool b => if b then ['t', 'r', 'u', 'e'] else ['f', 'a', 'l', 's', 'e']
  | .num neg ip fp =>
    (if neg then ['-'] else []) ++ ip ++
      (match fp with
       | some f => '.' :: f
       | none => [])
  | .str cs => escStr cs
  | .arr xs => '[' :: printElems xs ++ [']']
  | .obj kvs => '{' :: printMembers kvs ++ ['}']

def printElems : JsonArr → List Char
  | .nil => []
  | .cons v .nil => printJson v
  | .cons v (.cons v2 rest) => printJson v ++ ',' :: printElems (.cons v2 rest)

def printMembers : JsonObj → List Char
  | .nil => []
  | .cons k v .nil => escStr k ++ ':' :: printJson v
  | .cons k v (.cons k2 v2 rest) =>
    escStr k ++ ':' :: printJson v ++ ',' :: printMembers (.cons k2 v2 rest)
end

/-! ## The Structured-Response Extractor (`_strict_json`, llm_annotator.py) -/

/-- Python `str.replace` for a two-character pattern. -/
def replace2 (a b : Char) (rep : List Char) : List Char → List Char
  | [] => []
  | [c] => [c]
  | c :: c2 :: rest =>
    if c = a ∧ c2 = b then rep ++ replace2 a b rep rest
    else c :: replace2 a b rep (c2 :: rest)

/-- Is this character one of `"\\/bfnrt` (a recognized escape letter)? -/
def isEscLetter (c : Char) : Bool :=
  c = '"' || c = '\\' || c = '/' || c = 'b' || c = 'f' || c = 'n' || c = 'r' || c = 't'

/-- Does the rest of the text NOT continue with an escape letter
(the regex's negative lookahead, succeeding at end of text)? -/
def nextNotEsc : List Char → Bool
  | [] => true
  | d :: _ => ! isEscLetter d

/-- `re.sub` with pattern backslash, negative lookbehind for a backslash
and negative lookahead for an escape letter, replacing by a doubled
backslash.  `prev` is the character of the original text just before the
current position (`re.sub` scans the original text left to right). -/
def fixBackslashes : Option Char → List Char → List Char
  | _, [] => []
  | prev, c :: rest =>
    if c = '\\' then
      if prev = some '\\' then c :: fixBackslashes (some c) rest
      else if nextNotEsc rest then '\\' :: '\\' :: fixBackslashes (some '\\') rest
      else c :: fixBackslashes (some c) rest
    else c :: fixBackslashes (some c) rest

/-- The repair pass of `_strict_json`: double-escape backslash-n/t/r,
then escape backslashes that do not begin a recognized escape. -/
def repairJson (s : List Char) : List Char :=
  fixBackslashes none
    (replace2 '\\' 'r' ['\\', '\\', 'r']
      (replace2 '\\' 't' ['\\', '\\', 't']
        (replace2 '\\' 'n' ['\\', '\\', 'n'] s)))

/-- The markdown fence markers (written via code points: backtick ×3). -/
def fence3 : List Char := [Char.ofNat 96, Char.ofNat 96, Char.ofNat 96]

def fenceJson : List Char := fence3 ++ ['j', 's', 'o', 'n']

/-- The markdown code-block slicing shared by `_strict_json` and
`_parse_json_response`: if a \x60\x60\x60json fence is present and a
closing fence follows, keep only the stripped interior. -/
def sliceFence (s : List Char) : List Char :=
  match findSubIdx fenceJson s with
  | some f =>
    let start := f + 7
    match findSubIdx fence3 (s.drop start) with
    | some e => pyStrip ((s.drop start).take e)
    | none => s
  | none => s

/-- `i = s.find("\x7b"); j = s.rfind("\x7d")`, kept only when both exist
and `j > i`. -/
def braceSpan (t : List Char) : Option (Nat × Nat) :=
  match findIdxC (fun c => c = '{') t, rfindIdxC (fun c => c = '}') t with
  | some i, some j => if j ≤ i then none else some (i, j)
  | _, _ => none

/-- Python slice `s[i : j+1]`. -/
def pySlice (s : List Char) (i j : Nat) : List Char :=
  (s.drop i).take (j + 1 - i)

def noJsonMsg : List Char := "No JSON in LLM output".data

def parseFailMsg : List Char := "Could not parse JSON".data

/-- `_strict_json` of `llm_annotator.py`: slice a code fence, find the
brace-delimited substring, strict-parse it, and on failure repair once
and retry once.  (The detail text of the final error message is
elided.) -/
def strictJson (s : List Char) : Except (List Char) Json :=
  let t := sliceFence s
  match braceSpan t with
  | none => .error noJsonMsg
  | some (i, j) =>
    let jstr := pySlice t i j
    match jsonLoads jstr with
    | some v => .ok v
    | none =>
      match jsonLoads (repairJson jstr) with
      | some v => .ok v
      | none => .error parseFailMsg

/-- `_parse_json_response` of `variation_theory_filter.py`: same slicing
and brace search, a single strict parse, `None` on any failure.  The
parse result is returned as its member list (a brace-delimited parse can
only produce an object). -/
def parseJsonResponse (response : List Char) : Option JsonObj :=
  let t := sliceFence response
  match braceSpan t with
  | none => none
  | some (i, j) =>
    match jsonLoads (pySlice t i j) with
    | some (.obj kvs) => some kvs
    | _ => none

/-! ## Numeric coercion and the combined C2+C3 filter -/

/-- Decimal digit-list value. -/
def digitsToNat (ds : List Char) : Nat :=
  ds.foldl (fun acc c => 10 * acc + (c.toNat - 48)) 0

/-- Value of a decimal spelling (sign, integer digits, fraction digits). -/
def decToRat (neg : Bool) (ip : List Char) (fp : Option (List Char)) : ℚ :=
  let ival : ℚ := digitsToNat ip
  let fval : ℚ :=
    match fp with
    | some f => (digitsToNat f : ℚ) / (10 : ℚ) ^ f.length
    | none => 0
  if neg then -(ival + fval) else ival + fval

/-- Python `float(str)` on plain decimal spellings. -/
def strFloat (cs : List Char) : Option ℚ :=
  let t := pyStrip cs
  let sgn :=
    match t with
    | '-' :: r => (true, r)
    | '+' :: r => (false, r)
    | _ => (false, t)
  let ip := (parseDigits sgn.2).1
  let s2 := (parseDigits sgn.2).2
  match s2 with
  | [] => if ip.isEmpty then none else some (decToRat sgn.1 ip none)
  | '.' :: s3 =>
    let fp := (parseDigits s3).1
    let s4 := (parseDigits s3).2
    if s4.isEmpty then
      if ip.isEmpty ∧ fp.isEmpty then none else some (decToRat sgn.1 ip (some fp))
    else none
  | _ => none

/-- Python `float(v)` on a JSON value; `none` models the raised
`TypeError`/`ValueError`. -/
def pyFloat : Json → Option ℚ
  | .num neg ip fp => some (decToRat neg ip fp)
  | .bool b => some (if b then 1 else 0)
  | .str cs => strFloat cs
  | _ => none

/-- `min(max(x, 0.0), 1.0)`. -/
def clamp01 (x : ℚ) : ℚ := min (max x 0) 1

/-- Percentage normalization of the fallback branch:
`if x > 1.0: x = x / 100.0`. -/
def pctNorm (x : ℚ) : ℚ := if 1 < x then x / 100 else x

/-- `float(result.get(key, dflt))`; `none` models a raised conversion
error. -/
def getScore (kvs : JsonObj) (key : List Char) (dflt : ℚ) : Option ℚ :=
  match objLookup kvs key with
  | some v => pyFloat v
  | none => some dflt

/-- `[_\s]*` of the fallback regex. -/
def isScoreFill (c : Char) : Bool := c = '_' || isPySpace c

/-- `[:\s]*` of the fallback regex. -/
def isColonFill (c : Char) : Bool := c = ':' || isPySpace c

/-- Case-insensitive literal match (pattern given in lowercase); returns
the rest of the text. -/
def matchCI : List Char → List Char → Option (List Char)
  | [], s => some s
  | _ :: _, [] => none
  | p :: ps, c :: s => if lowerChar c = p then matchCI ps s else none

/-- The captured group `(\d+\.?\d*)`, converted by `float`. -/
def capNumber (s : List Char) : Option ℚ :=
  let d1 := (parseDigits s).1
  let s1 := (parseDigits s).2
  if d1.isEmpty then none
  else
    match s1 with
    | '.' :: s2 => some (decToRat false d1 (some ((parseDigits s2).1)))
    | _ => some (decToRat false d1 none)

/-- Match `key[_\s]*score[:\s]*(\d+\.?\d*)` (IGNORECASE) at the head of
the text. -/
def matchScoreAt (key s : List Char) : Option ℚ :=
  match matchCI key s with
  | none => none
  | some s1 =>
    match matchCI ['s', 'c', 'o', 'r', 'e'] (s1.dropWhile isScoreFill) with
    | none => none
    | some s3 => capNumber (s3.dropWhile isColonFill)

/-- `re.search` of the fallback regex: first position, scanning left to
right, where the pattern matches. -/
def searchScore (key : List Char) : List Char → Option ℚ
  | [] => none
  | c :: rest =>
    match matchScoreAt key (c :: rest) with
    | some v => some v
    | none => searchScore key rest

/-- The seven scores of `_combined_filter` (the four quality dimensions
inlined). -/
structure CombinedResult where
  pkr : ℚ
  lfr : ℚ
  slfr : ℚ
  minimality : ℚ
  fluency : ℚ
  labelDeterminism : ℚ
  faithfulness : ℚ
deriving DecidableEq

/-- The record built by `_combined_filter`'s `except` handler (also the
value every conversion-failure path produces). -/
def defaultCombined : CombinedResult :=
  ⟨1/2, 0, 0, 1/2, 1/2, 1/2, 1/2⟩

/-- `_combined_filter`, with the blocking LLM call made explicit: on a
raised request error, the neutral default; on a truthy parsed object,
`float` each score with its default and clamp (a conversion error falls
back to the `except` default); otherwise the regex text fallback with
percentage normalization and fixed 0.5 quality scores. -/
def combinedFilter (response : Except (List Char) (List Char)) : CombinedResult :=
  match response with
  | .error _ => defaultCombined
  | .ok resp =>
    match parseJsonResponse resp with
    | some (JsonObj.cons k0 v0 rest0) =>
      let kvs := JsonObj.cons k0 v0 rest0
      match getScore kvs "pkr_score".data (1/2), getScore kvs "lfr_score".data 0,
          getScore kvs "slfr_score".data 0, getScore kvs "minimality".data (1/2),
          getScore kvs "fluency".data (1/2), getScore kvs "label_determinism".data (1/2),
          getScore kvs "faithfulness".data (1/2) with
      | some pkr, some lfr, some slfr, some mi, some fl, some ld, some fa =>
        ⟨clamp01 pkr, clamp01 lfr, clamp01 slfr,
          clamp01 mi, clamp01 fl, clamp01 ld, clamp01 fa⟩
      | _, _, _, _, _, _, _ => defaultCombined
    | _ =>
      let pkr := (searchScore ['p', 'k', 'r'] resp).getD (1/2)
      let lfr := (searchScore ['l', 'f', 'r'] resp).getD 0
      let slfr := (searchScore ['s', 'l', 'f', 'r'] resp).getD 0
      ⟨clamp01 (pctNorm pkr), clamp01 (pctNorm lfr), clamp01 (pctNorm slfr),
        1/2, 1/2, 1/2, 1/2⟩

/-! ## The heuristic gate (Stage C1) -/

structure C1Result where
  pass : Bool
  reason : List Char
deriving DecidableEq

def promptIndicators : List (List Char) :=
  ["original:", "counterfactual:", "label:", "target:",
   "instructions:", "example:", "generate", "json:"].map String.data

def jsonIndicators : List (List Char) :=
  [['{'], ['}'], ['['], [']'], fence3, ['j', 's', 'o', 'n']]

/-- Largest multiplicity of a word (`max(word_counts.values())`, 0 when
empty). -/
def maxRepet (ws : List (List Char)) : Nat :=
  (ws.map (fun w => ws.count w)).foldr max 0

/-- The CJK ranges of the wrong-language check. -/
def isCJK (c : Char) : Bool :=
  (0x4e00 ≤ c.toNat && c.toNat ≤ 0x9fff) || (0x3400 ≤ c.toNat && c.toNat ≤ 0x4dbf)

/-- `_stage_c1_heuristic_filter`: the ordered rejection rules. -/
def stageC1 (text : List Char) : C1Result :=
  if (pyStrip text).length < 5 then ⟨false, "Text too short".data⟩
  else if text.count '"' % 2 ≠ 0 then ⟨false, "Unmatched quotes".data⟩
  else if ['.', '.', '.'].isSuffixOf text ∨ ['.', '.'].isSuffixOf text then
    ⟨false, "Incomplete text (ellipsis)".data⟩
  else if promptIndicators.any (fun ind => ind.isPrefixOf (text.map lowerChar)) then
    ⟨false, "Prompt leakage".data⟩
  else if 3 < (pySplit text).length ∧ (pySplit text).length / 2 < maxRepet (pySplit text) then
    ⟨false, "Excessive word repetition".data⟩
  else if jsonIndicators.any (fun ind => containsSub text ind) then
    ⟨false, "JSON formatting remnants".data⟩
  else if text.any isCJK then ⟨false, "Non-English characters detected".data⟩
  else ⟨true, "Passed heuristic checks".data⟩

/-! ## The three-stage filter -/

/-- The thresholds read from configuration (`cfg.get` with defaults). -/
structure FilterCfg where
  pkrThreshold : Option ℚ
  lfrThreshold : Option ℚ
  slfrThreshold : Option ℚ

/-- The fields of `apply_three_stage_filter`'s result this development
reasons about (the free-text `reason` and the `details` echo are not
modelled). -/
structure FilterResult where
  passAll : Bool
  stageFailed : List Char
  pkr : ℚ
  lfr : ℚ
  slfr : ℚ
  score : ℚ
deriving DecidableEq

/-- `apply_three_stage_filter`: the C1 gate, then the combined C2+C3
evaluation, threshold decision and weighted composite score. -/
def applyThreeStageFilter (cfg : FilterCfg) (counterfactual : List Char)
    (response : Except (List Char) (List Char)) : FilterResult :=
  let c1 := stageC1 counterfactual
  if ¬ c1.pass then ⟨false, "C1".data, 0, 0, 0, 0⟩
  else
    let cr := combinedFilter response
    let pt := cfg.pkrThreshold.getD (7/10)
    let lt := cfg.lfrThreshold.getD (4/5)
    let st := cfg.slfrThreshold.getD (4/5)
    let stage :=
      if cr.pkr < pt then "C2".data
      else if cr.lfr < lt ∨ cr.slfr < st then "C3".data
      else "None".data
    let qAvg := (cr.minimality + cr.fluency + cr.labelDeterminism + cr.faithfulness) / 4
    ⟨decide (pt ≤ cr.pkr ∧ lt ≤ cr.lfr ∧ st ≤ cr.slfr), stage,
      cr.pkr, cr.lfr, cr.slfr,
      cr.pkr * (25/100) + cr.lfr * (35/100) + cr.slfr * (25/100) + qAvg * (15/100)⟩

/-! ## The diversity selector (`select_top_k.py`) -/

def scoreAt (scores : List ℚ) (i : Nat) : ℚ := scores.getD i 0

/-- The order `sorted(range(n), key=score, reverse=True)` arranges
indices in: strictly larger score first, ties by index. -/
def demoRel (scores : List ℚ) (i j : Nat) : Prop :=
  scoreAt scores j < scoreAt scores i ∨ (scoreAt scores i = scoreAt scores j ∧ i ≤ j)

instance demoRelDecidable (scores : List ℚ) : DecidableRel (demoRel scores) := fun i j => by
  unfold demoRel
  infer_instance

/-- `sorted(range(n), key=score, reverse=True)`: Python's stable
descending sort, i.e. the unique order descending by score with ties in
index order. -/
def demoOrder (scores : List ℚ) : List Nat :=
  List.insertionSort (demoRel scores) (List.range scores.length)

/-- The inner diversity check: keep `i` iff its similarity to every
already selected index is at most the threshold (vacuously true when no
embedding vectors are available). -/
def simOK (sim : Option (Nat → Nat → ℚ)) (thr : ℚ) (sel : List Nat) (i : Nat) : Bool :=
  match sim with
  | none => true
  | some f => sel.all (fun j => decide (f i j ≤ thr))

/-- The selection loop: `break` once `k` are selected, else append `i`
when the diversity check keeps it. -/
def selLoop (k : Nat) (ok : List Nat → Nat → Bool) : List Nat → List Nat → List Nat
  | [], sel => sel
  | i :: rest, sel =>
    if k ≤ sel.length then sel
    else if ok sel i then selLoop k ok rest (sel ++ [i])
    else selLoop k ok rest sel

/-- The selection pass of `select_top_k.main`, over candidate scores and
an optional pairwise-similarity table (the cosine over externally
supplied embedding vectors); returns selected candidate indices. -/
def selectTopK (scores : List ℚ) (sim : Option (Nat → Nat → ℚ)) (k : Nat) (thr : ℚ) :
    List Nat :=
  selLoop k (simOK sim thr) (demoOrder scores) []

/-! ## The pattern learner (`neurosymbolic_patterns.py`) -/

/-- `examples[:8] if len(examples) > 8 else examples`. -/
def samplePatternExamples (examples : List String) : List String :=
  examples.take 8

/-- `learn_all_patterns`'s learning loop, with the LLM learning request
made explicit as an oracle from a label and its sampled examples to a
parsed pattern list.  Returns the label-to-patterns mapping and the log
of issued requests (label, sampled examples). -/
def learnAllPatterns : List String → (String → List String) →
    (String → List String → List Json) →
    List (String × List Json) × List (String × List String)
  | [], _, _ => ([], [])
  | label :: rest, examplesOf, oracle =>
    let tl := learnAllPatterns rest examplesOf oracle
    let ex := examplesOf label
    if ex.length < 2 then ((label, []) :: tl.1, tl.2)
    else
      ((label, oracle label (samplePatternExamples ex)) :: tl.1,
        (label, samplePatternExamples ex) :: tl.2)

/-! ## The annotator fallback (`annotate_label`) -/

/-- The `except` fallback value: the first label of the label set. -/
def defaultAnnot (labels : List (List Char)) : Json :=
  Json.obj (.cons "label".data (.str (labels.headD [])) .nil)

/-- `annotate_label` after its first (blocking) request has returned
`out1`: extract; on failure issue one re-request (`retry`, an `.error`
models a raised transport error) and extract again; on any second
failure return the first-label default.  The boolean records whether the
re-request was issued. -/
def annotateLabel (labels : List (List Char)) (out1 : List Char)
    (retry : Except (List Char) (List Char)) : Json × Bool :=
  match strictJson out1 with
  | .ok v => (v, false)
  | .error _ =>
    match retry with
    | .error _ => (defaultAnnot labels, true)
    | .ok out2 =>
      match strictJson out2 with
      | .ok v => (v, true)
      | .error _ => (defaultAnnot labels, true)

/-! ## Concrete fixtures used by witnesses and counterexamples -/

/-- A combined-filter response with every score spelled `0.9`. -/
def respAllNine : List Char :=
  ("\x7b\"pkr_score\": 0.9, \"lfr_score\": 0.9, \"slfr_score\": 0.9, " ++
   "\"minimality\": 0.9, \"fluency\": 0.9, \"label_determinism\": 0.9, " ++
   "\"faithfulness\": 0.9\x7d").data

/-- A combined-filter response with every score in percentage form. -/
def respAll85 : List Char :=
  ("\x7b\"pkr_score\": 85, \"lfr_score\": 85, \"slfr_score\": 85, " ++
   "\"minimality\": 85, \"fluency\": 85, \"label_determinism\": 85, " ++
   "\"faithfulness\": 85\x7d").data

/-- A free-text response (no braces) that only the regex fallback can
read, scores in percentage form. -/
def fbText85 : List Char := "pkr score: 85, lfr score: 85, slfr score: 85".data

/-- A counterfactual that passes the C1 gate. -/
def sampleCF : List Char := "I feel furious and agitated".data

/-- A raw response whose backticks are spelled as ``` escapes: no
literal fence appears in the raw text, but the extracted string value
contains one. -/
def rawFence : List Char :=
  "\x7b\"k\": \"\\u0060\\u0060\\u0060json x\\u0060\\u0060\\u0060\"\x7d".data

/-- The mapping extracted from `rawFence`. -/
def mFence : Json :=
  Json.obj (.cons ['k'] (.str (fence3 ++ "json x".data ++ fence3)) .nil)

/-- Digits of a well-formed number spelling. -/
def digitsOK (ds : List Char) : Prop :=
  ds ≠ [] ∧ ∀ c ∈ ds, c.isDigit = true

/-- The integer part additionally has no leading zero. -/
def intPartOK (ds : List Char) : Prop :=
  digitsOK ds ∧ (ds.head? = some '0' → ds.length = 1)

mutual
/-- Values the JSON parser can produce: well-formed number spellings and
objects with distinct keys. -/
def jsonWF : Json → Prop
  | .null => True
  | .bool _ => True
  | .num _ ip fp =>
    intPartOK ip ∧ (match fp with
      | some f => digitsOK f
      | none => True)
  | .str _ => True
  | .arr xs => arrWF xs
  | .obj kvs => objWF kvs

def arrWF : JsonArr → Prop
  | .nil => True
  | .cons v rest => jsonWF v ∧ arrWF rest

def objWF : JsonObj → Prop
  | .nil => True
  | .cons k v rest => jsonWF v ∧ objHasKey rest k = false ∧ objWF rest
end

mutual
/-- Fuel needed to parse a printed value. -/
def jsize : Json → Nat
  | .null => 1
  | .bool _ => 1
  | .num _ _ _ => 1
  | .str _ => 1
  | .arr xs => asize xs + 1
  | .obj kvs => osize kvs + 1

def asize : JsonArr → Nat
  | .nil => 1
  | .cons v rest => 1 + max (jsize v) (asize rest)

def osize : JsonObj → Nat
  | .nil => 1
  | .cons _ v rest => 1 + max (jsize v) (osize rest)
end

/-- The text after a printed value inside a larger printed term never
continues a number: its head is none of a digit or a dot. -/
def delimOk (rest : List Char) : Prop :=
  ∀ c, rest.head? = some c → c.isDigit = false ∧ c ≠ '.'

/-- No key of the second object occurs in the first. -/
def keysFresh (acc : JsonObj) : JsonObj → Prop
  | .nil => True
  | .cons k _ rest => objHasKey acc k = false ∧ keysFresh acc rest

/-- Concatenation of arrays. -/
def arrAppend : JsonArr → JsonArr → JsonArr
  | .nil, ys => ys
  | .cons v rest, ys => .cons v (arrAppend rest ys)

/-- Membership in the unit interval, the invariant of §3. -/
def inUnit (x : ℚ) : Prop := 0 ≤ x ∧ x ≤ 1

/-- All seven scores of a combined result lie in [0,1]. -/
def resultInUnit (c : CombinedResult) : Prop :=
  inUnit c.pkr ∧ inUnit c.lfr ∧ inUnit c.slfr ∧ inUnit c.minimality ∧
    inUnit c.fluency ∧ inUnit c.labelDeterminism ∧ inUnit c.faithfulness

/-! ## Theorems -/

theorem pyStrip_length_le (t : List Char) : (pyStrip t).length ≤ t.length := by
  unfold pyStrip
  calc ((t.dropWhile isPySpace).reverse.dropWhile isPySpace).reverse.length
      = ((t.dropWhile isPySpace).reverse.dropWhile isPySpace).length := by
        rw [List.length_reverse]
    _ ≤ (t.dropWhile isPySpace).reverse.length :=
        (List.dropWhile_sublist _).length_le
    _ = (t.dropWhile isPySpace).length := by rw [List.length_reverse]
    _ ≤ t.length := (List.dropWhile_sublist _).length_le

/-- Claim C4 (amended): the C1 gate rejects whenever the text (equally,
its stripped form) is shorter than 5 characters, has an odd number of
double-quote characters, or ends in two ASCII dots (which covers a
three-dot ellipsis); the first three rules fire in that order — length
on the stripped text first — and the first one that matches fixes the
reason.  A text ending only in the one-character ellipsis is not
covered by the ellipsis rule. -/
theorem claimC4_gate_rejections (t : List Char) :
    (t.length < 5 → (stageC1 t).pass = false) ∧
    (t.count '"' % 2 ≠ 0 → (stageC1 t).pass = false) ∧
    (['.', '.'].isSuffixOf t → (stageC1 t).pass = false) ∧
    ((pyStrip t).length < 5 → stageC1 t = ⟨false, "Text too short".data⟩) ∧
    (¬ (pyStrip t).length < 5 → t.count '"' % 2 ≠ 0 →
      stageC1 t = ⟨false, "Unmatched quotes".data⟩) ∧
    (¬ (pyStrip t).length < 5 → t.count '"' % 2 = 0 → ['.', '.'].isSuffixOf t →
      stageC1 t = ⟨false, "Incomplete text (ellipsis)".data⟩) := by
  have hlen : ∀ h : (pyStrip t).length < 5, stageC1 t = ⟨false, "Text too short".data⟩ := by
    intro h
    unfold stageC1
    rw [if_pos h]
  have hquote : ∀ _ : ¬ (pyStrip t).length < 5, ∀ _ : t.count '"' % 2 ≠ 0,
      stageC1 t = ⟨false, "Unmatched quotes".data⟩ := by
    intro h1 h2
    unfold stageC1
    rw [if_neg h1, if_pos h2]
  have hell : ∀ _ : ¬ (pyStrip t).length < 5, ∀ _ : t.count '"' % 2 = 0,
      ∀ _ : ['.', '.'].isSuffixOf t = true,
      stageC1 t = ⟨false, "Incomplete text (ellipsis)".data⟩ := by
    intro h1 h2 h3
    unfold stageC1
    rw [if_neg h1, if_neg (by simp [h2]), if_pos (Or.inr h3)]
  refine ⟨?_, ?_, ?_, hlen, hquote, hell⟩
  · intro h
    have hs : (pyStrip t).length < 5 := lt_of_le_of_lt (pyStrip_length_le t) h
    rw [hlen hs]
  · intro h
    by_cases h1 : (pyStrip t).length < 5
    · rw [hlen h1]
    · rw [hquote h1 h]
  · intro h
    by_cases h1 : (pyStrip t).length < 5
    · rw [hlen h1]
    · by_cases h2 : t.count '"' % 2 = 0
      · rw [hell h1 h2 h]
      · rw [hquote h1 h2]

theorem claimC4_witness :
    "a...".data.length < 5 ∧ (stageC1 "a...".data).pass = false ∧
    "ab\"cdef".data.count '"' % 2 ≠ 0 ∧ (stageC1 "ab\"cdef".data).pass = false ∧
    ['.', '.'].isSuffixOf "abcdef..".data = true ∧
    stageC1 "abcdef..".data = ⟨false, "Incomplete text (ellipsis)".data⟩ :=
  ⟨by decide, (claimC4_gate_rejections "a...".data).1 (by decide),
   by decide, (claimC4_gate_rejections "ab\"cdef".data).2.1 (by decide),
   by decide,
   (claimC4_gate_rejections "abcdef..".data).2.2.2.2.2 (by decide) (by decide) (by decide)⟩

/-- Claim C4, counterexample: a text that ends in the one-character
ellipsis `…` passes the gate (the code tests only the ASCII spellings
`...` and `..`), and a text whose quote count is odd but whose stripped
length is below 5 is reported as too short (the length rule fires on
the stripped text before the quote rule). -/
theorem claimC4_counterexample :
    (['…'].isSuffixOf "hello world…".data = true ∧
      (stageC1 "hello world…".data).pass = true) ∧
    ("   \"  ".data.length = 6 ∧ "   \"  ".data.count '"' % 2 ≠ 0 ∧
      stageC1 "   \"  ".data = ⟨false, "Text too short".data⟩) := by
  constructor
  · exact ⟨by decide, by decide⟩
  · exact ⟨by decide, by decide, by decide⟩

theorem digits09_nat : digitsToNat ['0'] = 0 ∧ digitsToNat ['9'] = 9 := ⟨rfl, rfl⟩

theorem clamp_dec09 : clamp01 (decToRat false ['0'] (some ['9'])) = 9/10 := by
  have h1 : decToRat false ['0'] (some ['9']) =
      (digitsToNat ['0'] : ℚ) + (digitsToNat ['9'] : ℚ) / 10 ^ (1 : ℕ) := rfl
  rw [h1, digits09_nat.1, digits09_nat.2]
  norm_num [clamp01]

theorem combined_respAllNine :
    combinedFilter (.ok respAllNine) =
      ⟨9/10, 9/10, 9/10, 9/10, 9/10, 9/10, 9/10⟩ := by
  have h : combinedFilter (.ok respAllNine) =
      ⟨clamp01 (decToRat false ['0'] (some ['9'])), clamp01 (decToRat false ['0'] (some ['9'])),
       clamp01 (decToRat false ['0'] (some ['9'])), clamp01 (decToRat false ['0'] (some ['9'])),
       clamp01 (decToRat false ['0'] (some ['9'])), clamp01 (decToRat false ['0'] (some ['9'])),
       clamp01 (decToRat false ['0'] (some ['9']))⟩ := rfl
  rw [h, clamp_dec09]

/-- Claim C2: a C1 failure zeroes the whole result; otherwise the
composite is the 0.25/0.35/0.25/0.15-weighted combination of pkr, lfr,
slfr and the quality mean, computed whatever `stage_failed` says; and
an all-0.9 evaluation of a C1-passing counterfactual scores exactly
0.9. -/
theorem claimC2_composite (cfg : FilterCfg) (cf : List Char)
    (resp : Except (List Char) (List Char)) :
    ((stageC1 cf).pass = false →
      applyThreeStageFilter cfg cf resp = ⟨false, "C1".data, 0, 0, 0, 0⟩) ∧
    ((stageC1 cf).pass = true →
      (applyThreeStageFilter cfg cf resp).score =
        (combinedFilter resp).pkr * (25/100) + (combinedFilter resp).lfr * (35/100) +
          (combinedFilter resp).slfr * (25/100) +
          ((combinedFilter resp).minimality + (combinedFilter resp).fluency +
            (combinedFilter resp).labelDeterminism + (combinedFilter resp).faithfulness) /
            4 * (15/100)) ∧
    applyThreeStageFilter ⟨none, none, none⟩ sampleCF (.ok respAllNine) =
      ⟨true, "None".data, 9/10, 9/10, 9/10, 9/10⟩ := by
  refine ⟨?_, ?_, ?_⟩
  · intro h
    unfold applyThreeStageFilter
    rw [if_pos (by simp [h])]
  · intro h
    unfold applyThreeStageFilter
    rw [if_neg (by simp [h])]
  · unfold applyThreeStageFilter
    rw [if_neg (by simp [show (stageC1 sampleCF).pass = true from by decide])]
    rw [combined_respAllNine]
    simp only [Option.getD]
    rw [if_neg (by norm_num), if_neg (by norm_num)]
    have hp : ((7:ℚ)/10 ≤ 9/10 ∧ (4:ℚ)/5 ≤ 9/10 ∧ (4:ℚ)/5 ≤ 9/10) := by norm_num
    rw [decide_eq_true hp]
    have : (9:ℚ)/10 * (25/100) + 9/10 * (35/100) + 9/10 * (25/100) +
        (9/10 + 9/10 + 9/10 + 9/10) / 4 * (15/100) = 9/10 := by norm_num
    rw [this]

theorem claimC2_witness :
    (stageC1 "….".data).pass = false ∧
    applyThreeStageFilter ⟨none, none, none⟩ "….".data (.ok respAllNine) =
      ⟨false, "C1".data, 0, 0, 0, 0⟩ ∧
    (stageC1 sampleCF).pass = true ∧
    (applyThreeStageFilter ⟨none, none, none⟩ sampleCF (.ok fbText85)).score =
      (combinedFilter (.ok fbText85)).pkr * (25/100) +
        (combinedFilter (.ok fbText85)).lfr * (35/100) +
        (combinedFilter (.ok fbText85)).slfr * (25/100) +
        ((combinedFilter (.ok fbText85)).minimality + (combinedFilter (.ok fbText85)).fluency +
          (combinedFilter (.ok fbText85)).labelDeterminism +
          (combinedFilter (.ok fbText85)).faithfulness) / 4 * (15/100) :=
  ⟨by decide,
   (claimC2_composite ⟨none, none, none⟩ "….".data (.ok respAllNine)).1 (by decide),
   by decide,
   (claimC2_composite ⟨none, none, none⟩ sampleCF (.ok fbText85)).2.1 (by decide)⟩

/-- Claim C3: past C1, with thresholds read from configuration
(defaults 0.7 / 0.8 / 0.8), pkr below its threshold fails at C2;
otherwise lfr or slfr below its threshold fails at C3; otherwise no
stage fails, and `pass_all` holds exactly when all three metrics meet
their thresholds. -/
theorem claimC3_threshold_decision (cfg : FilterCfg) (cf : List Char)
    (resp : Except (List Char) (List Char)) (h : (stageC1 cf).pass = true) :
    ((applyThreeStageFilter cfg cf resp).stageFailed = "C2".data ↔
      (combinedFilter resp).pkr < cfg.pkrThreshold.getD (7/10)) ∧
    ((applyThreeStageFilter cfg cf resp).stageFailed = "C3".data ↔
      (cfg.pkrThreshold.getD (7/10) ≤ (combinedFilter resp).pkr ∧
        ((combinedFilter resp).lfr < cfg.lfrThreshold.getD (4/5) ∨
          (combinedFilter resp).slfr < cfg.slfrThreshold.getD (4/5)))) ∧
    ((applyThreeStageFilter cfg cf resp).stageFailed = "None".data ↔
      (cfg.pkrThreshold.getD (7/10) ≤ (combinedFilter resp).pkr ∧
        cfg.lfrThreshold.getD (4/5) ≤ (combinedFilter resp).lfr ∧
        cfg.slfrThreshold.getD (4/5) ≤ (combinedFilter resp).slfr)) ∧
    ((applyThreeStageFilter cfg cf resp).passAll = true ↔
      (cfg.pkrThreshold.getD (7/10) ≤ (combinedFilter resp).pkr ∧
        cfg.lfrThreshold.getD (4/5) ≤ (combinedFilter resp).lfr ∧
        cfg.slfrThreshold.getD (4/5) ≤ (combinedFilter resp).slfr)) ∧
    applyThreeStageFilter ⟨none, none, none⟩ cf resp =
      applyThreeStageFilter ⟨some (7/10), some (4/5), some (4/5)⟩ cf resp := by
  have hr : applyThreeStageFilter cfg cf resp =
      ⟨decide (cfg.pkrThreshold.getD (7/10) ≤ (combinedFilter resp).pkr ∧
          cfg.lfrThreshold.getD (4/5) ≤ (combinedFilter resp).lfr ∧
          cfg.slfrThreshold.getD (4/5) ≤ (combinedFilter resp).slfr),
        (if (combinedFilter resp).pkr < cfg.pkrThreshold.getD (7/10) then "C2".data
         else if (combinedFilter resp).lfr < cfg.lfrThreshold.getD (4/5) ∨
             (combinedFilter resp).slfr < cfg.slfrThreshold.getD (4/5) then "C3".data
         else "None".data),
        (combinedFilter resp).pkr, (combinedFilter resp).lfr, (combinedFilter resp).slfr,
        (combinedFilter resp).pkr * (25/100) + (combinedFilter resp).lfr * (35/100) +
          (combinedFilter resp).slfr * (25/100) +
          ((combinedFilter resp).minimality + (combinedFilter resp).fluency +
            (combinedFilter resp).labelDeterminism + (combinedFilter resp).faithfulness) /
            4 * (15/100)⟩ := by
    unfold applyThreeStageFilter
    rw [if_neg (by simp [h])]
  refine ⟨?_, ?_, ?_, ?_, ?_⟩
  · rw [hr]
    by_cases h1 : (combinedFilter resp).pkr < cfg.pkrThreshold.getD (7/10)
    · simp only [if_pos h1]
      exact ⟨fun _ => h1, fun _ => trivial⟩
    · simp only [if_neg h1]
      constructor
      · intro hc
        exfalso
        by_cases h2 : (combinedFilter resp).lfr < cfg.lfrThreshold.getD (4/5) ∨
            (combinedFilter resp).slfr < cfg.slfrThreshold.getD (4/5)
        · rw [if_pos h2] at hc
          exact absurd hc (by decide)
        · rw [if_neg h2] at hc
          exact absurd hc (by decide)
      · intro hc
        exact absurd hc h1
  · rw [hr]
    by_cases h1 : (combinedFilter resp).pkr < cfg.pkrThreshold.getD (7/10)
    · simp only [if_pos h1]
      constructor
      · intro hc
        exact absurd hc (by decide)
      · intro hc
        exact absurd h1 (not_lt.mpr hc.1)
    · simp only [if_neg h1]
      by_cases h2 : (combinedFilter resp).lfr < cfg.lfrThreshold.getD (4/5) ∨
          (combinedFilter resp).slfr < cfg.slfrThreshold.getD (4/5)
      · simp only [if_pos h2]
        exact ⟨fun _ => ⟨not_lt.mp h1, h2⟩, fun _ => trivial⟩
      · simp only [if_neg h2]
        exact ⟨fun hc => absurd hc (by decide), fun hc => absurd hc.2 h2⟩
  · rw [hr]
    by_cases h1 : (combinedFilter resp).pkr < cfg.pkrThreshold.getD (7/10)
    · simp only [if_pos h1]
      exact ⟨fun hc => absurd hc (by decide), fun hc => absurd h1 (not_lt.mpr hc.1)⟩
    · simp only [if_neg h1]
      by_cases h2 : (combinedFilter resp).lfr < cfg.lfrThreshold.getD (4/5) ∨
          (combinedFilter resp).slfr < cfg.slfrThreshold.getD (4/5)
      · simp only [if_pos h2]
        constructor
        · intro hc
          exact absurd hc (by decide)
        · intro hc
          rcases h2 with h2 | h2
          · exact absurd h2 (not_lt.mpr hc.2.1)
          · exact absurd h2 (not_lt.mpr hc.2.2)
      · simp only [if_neg h2]
        push_neg at h2
        exact ⟨fun _ => ⟨not_lt.mp h1, h2.1, h2.2⟩, fun _ => trivial⟩
  · rw [hr]
    simp [decide_eq_true_eq]
  · unfold applyThreeStageFilter
    rfl

theorem claimC3_witness :
    (stageC1 sampleCF).pass = true ∧
    ((applyThreeStageFilter ⟨none, none, none⟩ sampleCF (.ok respAllNine)).stageFailed =
        "None".data ↔
      ((7:ℚ)/10 ≤ (combinedFilter (.ok respAllNine)).pkr ∧
        (4:ℚ)/5 ≤ (combinedFilter (.ok respAllNine)).lfr ∧
        (4:ℚ)/5 ≤ (combinedFilter (.ok respAllNine)).slfr)) :=
  ⟨by decide,
   (claimC3_threshold_decision ⟨none, none, none⟩ sampleCF (.ok respAllNine)
      (by decide)).2.2.1⟩

theorem clamp01_mem (x : ℚ) : inUnit (clamp01 x) :=
  ⟨le_min (le_max_right x 0) (by norm_num), min_le_right _ _⟩

theorem half_mem : inUnit ((1 : ℚ)/2) := by
  constructor <;> norm_num [inUnit]

theorem defaultCombined_mem : resultInUnit defaultCombined := by
  refine ⟨⟨?_, ?_⟩, ⟨?_, ?_⟩, ⟨?_, ?_⟩, ⟨?_, ?_⟩, ⟨?_, ?_⟩, ⟨?_, ?_⟩, ⟨?_, ?_⟩⟩ <;>
    norm_num [defaultCombined]

theorem combinedFilter_cases (resp : Except (List Char) (List Char)) :
    combinedFilter resp = defaultCombined ∨
    (∃ a b c d e f g, combinedFilter resp =
      ⟨clamp01 a, clamp01 b, clamp01 c, clamp01 d, clamp01 e, clamp01 f, clamp01 g⟩) ∨
    (∃ a b c, combinedFilter resp =
      ⟨clamp01 a, clamp01 b, clamp01 c, 1/2, 1/2, 1/2, 1/2⟩) := by
  unfold combinedFilter
  split
  · exact Or.inl rfl
  · split
    · dsimp only
      split
      · exact Or.inr (Or.inl ⟨_, _, _, _, _, _, _, rfl⟩)
      · exact Or.inl rfl
    · exact Or.inr (Or.inr ⟨_, _, _, rfl⟩)

/-- Claim C7: the combined C2+C3 evaluator is total — a raised request
error yields exactly the fixed neutral/zero default, a score-conversion
error on a parsed object yields the same default, and every result it
can return (default, clamped JSON branch, or clamped fallback) has all
seven scores in [0,1]. -/
theorem claimC7_no_raise :
    (∀ e, combinedFilter (.error e) = defaultCombined) ∧
    resultInUnit defaultCombined ∧
    (∀ resp, resultInUnit (combinedFilter resp)) ∧
    (∀ resp k0 v0 r0, parseJsonResponse resp = some (JsonObj.cons k0 v0 r0) →
      (getScore (JsonObj.cons k0 v0 r0) "pkr_score".data (1/2) = none ∨
        getScore (JsonObj.cons k0 v0 r0) "lfr_score".data 0 = none ∨
        getScore (JsonObj.cons k0 v0 r0) "slfr_score".data 0 = none ∨
        getScore (JsonObj.cons k0 v0 r0) "minimality".data (1/2) = none ∨
        getScore (JsonObj.cons k0 v0 r0) "fluency".data (1/2) = none ∨
        getScore (JsonObj.cons k0 v0 r0) "label_determinism".data (1/2) = none ∨
        getScore (JsonObj.cons k0 v0 r0) "faithfulness".data (1/2) = none) →
      combinedFilter (.ok resp) = defaultCombined) := by
  refine ⟨fun e => rfl, defaultCombined_mem, ?_, ?_⟩
  · intro resp
    rcases combinedFilter_cases resp with h | ⟨a, b, c, d, e, f, g, h⟩ | ⟨a, b, c, h⟩
    · rw [h]; exact defaultCombined_mem
    · rw [h]
      exact ⟨clamp01_mem a, clamp01_mem b, clamp01_mem c, clamp01_mem d,
        clamp01_mem e, clamp01_mem f, clamp01_mem g⟩
    · rw [h]
      exact ⟨clamp01_mem a, clamp01_mem b, clamp01_mem c, half_mem, half_mem,
        half_mem, half_mem⟩
  · intro resp k0 v0 r0 hp hnone
    unfold combinedFilter
    dsimp only
    rw [hp]
    dsimp only
    rcases h1 : getScore (JsonObj.cons k0 v0 r0) "pkr_score".data (1/2) with _ | a
    · simp [h1]
    rcases h2 : getScore (JsonObj.cons k0 v0 r0) "lfr_score".data 0 with _ | b
    · simp [h2]
    rcases h3 : getScore (JsonObj.cons k0 v0 r0) "slfr_score".data 0 with _ | c
    · simp [h3]
    rcases h4 : getScore (JsonObj.cons k0 v0 r0) "minimality".data (1/2) with _ | d
    · simp [h4]
    rcases h5 : getScore (JsonObj.cons k0 v0 r0) "fluency".data (1/2) with _ | e
    · simp [h5]
    rcases h6 : getScore (JsonObj.cons k0 v0 r0) "label_determinism".data (1/2) with _ | f
    · simp [h6]
    rcases h7 : getScore (JsonObj.cons k0 v0 r0) "faithfulness".data (1/2) with _ | g
    · simp [h7]
    simp only [h1, h2, h3, h4, h5, h6, h7] at hnone
    rcases hnone with h | h | h | h | h | h | h <;> exact absurd h (by simp)

/-- Every entry of the request log samples at most 8 examples, and only
labels with at least 2 examples are ever requested. -/
theorem learnLog_spec (labels : List String) (examplesOf : String → List String)
    (oracle : String → List String → List Json) :
    ∀ entry ∈ (learnAllPatterns labels examplesOf oracle).2,
      entry.2.length ≤ 8 ∧ ¬ (examplesOf entry.1).length < 2 := by
  induction labels with
  | nil => exact fun _ h => absurd h (List.not_mem_nil _)
  | cons l rest ih =>
    intro entry hentry
    unfold learnAllPatterns at hentry
    by_cases hl : (examplesOf l).length < 2
    · rw [if_pos hl] at hentry
      exact ih entry hentry
    · rw [if_neg hl] at hentry
      rcases List.mem_cons.mp hentry with h | h
      · subst h
        refine ⟨?_, hl⟩
        simp [samplePatternExamples]
      · exact ih entry h

/-- A label with fewer than 2 examples maps to the empty pattern list. -/
theorem learnLookup_spec (labels : List String) (examplesOf : String → List String)
    (oracle : String → List String → List Json) :
    ∀ label ∈ labels, (examplesOf label).length < 2 →
      (learnAllPatterns labels examplesOf oracle).1.lookup label = some [] := by
  induction labels with
  | nil => exact fun _ h => absurd h (List.not_mem_nil _)
  | cons l rest ih =>
    intro label hmem hshort
    unfold learnAllPatterns
    by_cases hli : label = l
    · subst hli
      rw [if_pos hshort]
      simp [List.lookup]
    · have hmem2 : label ∈ rest := by
        rcases List.mem_cons.mp hmem with h | h
        · exact absurd h hli
        · exact h
      by_cases hl : (examplesOf l).length < 2
      · rw [if_pos hl]
        simpa [List.lookup, beq_eq_false_iff_ne.mpr hli] using ih label hmem2 hshort
      · rw [if_neg hl]
        simpa [List.lookup, beq_eq_false_iff_ne.mpr hli] using ih label hmem2 hshort

/-- Claim C8: every learning request carries at most 8 sampled examples,
and a label with fewer than 2 training examples gets an empty pattern
list with no request issued for it. -/
theorem claimC8_sampling (labels : List String) (examplesOf : String → List String)
    (oracle : String → List String → List Json) :
    (∀ entry ∈ (learnAllPatterns labels examplesOf oracle).2, entry.2.length ≤ 8) ∧
    (∀ label ∈ labels, (examplesOf label).length < 2 →
      (learnAllPatterns labels examplesOf oracle).1.lookup label = some [] ∧
        ∀ entry ∈ (learnAllPatterns labels examplesOf oracle).2, entry.1 ≠ label) := by
  refine ⟨fun entry he => (learnLog_spec labels examplesOf oracle entry he).1, ?_⟩
  intro label hmem hshort
  refine ⟨learnLookup_spec labels examplesOf oracle label hmem hshort, ?_⟩
  intro entry he heq
  exact (learnLog_spec labels examplesOf oracle entry he).2 (heq ▸ hshort)

/-- Claim C10: with a non-empty label list, `annotate_label` never lets
an extraction failure escape: a first-response extraction success is
returned with no re-request; on failure one re-request is issued, and a
second extraction failure — or a raised re-request — yields the default
annotation naming the first label. -/
theorem claimC10_annotator_fallback (l : List Char) (ls : List (List Char))
    (out1 : List Char) (retry : Except (List Char) (List Char)) :
    (∀ v, strictJson out1 = .ok v → annotateLabel (l :: ls) out1 retry = (v, false)) ∧
    (∀ e, strictJson out1 = .error e →
      ((∀ e2, retry = .error e2 →
          annotateLabel (l :: ls) out1 retry =
            (Json.obj (.cons "label".data (.str l) .nil), true)) ∧
        (∀ out2 v, retry = .ok out2 → strictJson out2 = .ok v →
          annotateLabel (l :: ls) out1 retry = (v, true)) ∧
        (∀ out2 e3, retry = .ok out2 → strictJson out2 = .error e3 →
          annotateLabel (l :: ls) out1 retry =
            (Json.obj (.cons "label".data (.str l) .nil), true)))) := by
  constructor
  · intro v hv
    simp only [annotateLabel, hv]
  · intro e he
    refine ⟨?_, ?_, ?_⟩
    · intro e2 hr
      simp only [annotateLabel, he, hr]
      rfl
    · intro out2 v hr hv
      simp only [annotateLabel, he, hr, hv]
    · intro out2 e3 hr hv
      simp only [annotateLabel, he, hr, hv]
      rfl

theorem claimC10_witness :
    strictJson "no structure here".data = .error noJsonMsg ∧
    annotateLabel ["anger".data, "joy".data] "no structure here".data
        (.error "transport".data) =
      (Json.obj (.cons "label".data (.str "anger".data) .nil), true) :=
  ⟨by rfl,
   ((claimC10_annotator_fallback "anger".data ["joy".data] "no structure here".data
        (.error "transport".data)).2 noJsonMsg (by rfl)).1 "transport".data rfl⟩

theorem demoRel_total (scores : List ℚ) : IsTotal Nat (demoRel scores) := by
  constructor
  intro i j
  unfold demoRel
  rcases lt_trichotomy (scoreAt scores i) (scoreAt scores j) with h | h | h
  · exact Or.inr (Or.inl h)
  · rcases Nat.le_total i j with hij | hij
    · exact Or.inl (Or.inr ⟨h, hij⟩)
    · exact Or.inr (Or.inr ⟨h.symm, hij⟩)
  · exact Or.inl (Or.inl h)

theorem demoRel_trans (scores : List ℚ) : IsTrans Nat (demoRel scores) := by
  constructor
  intro a b c hab hbc
  unfold demoRel at *
  rcases hab with h1 | ⟨h1, h1'⟩
  · rcases hbc with h2 | ⟨h2, h2'⟩
    · exact Or.inl (h2.trans h1)
    · exact Or.inl (h2 ▸ h1)
  · rcases hbc with h2 | ⟨h2, h2'⟩
    · exact Or.inl (h1 ▸ h2)
    · exact Or.inr ⟨h1.trans h2, h1'.trans h2'⟩

theorem selLoop_length_le (k : Nat) (ok : List Nat → Nat → Bool) (ord : List Nat) :
    ∀ sel, sel.length ≤ k → (selLoop k ok ord sel).length ≤ k := by
  induction ord with
  | nil => intro sel h; simpa [selLoop] using h
  | cons i rest ih =>
    intro sel h
    unfold selLoop
    by_cases hk : k ≤ sel.length
    · rw [if_pos hk]; exact h
    · rw [if_neg hk]
      by_cases ho : ok sel i = true
      · rw [if_pos ho]
        refine ih (sel ++ [i]) ?_
        simp only [List.length_append, List.length_cons, List.length_nil]
        omega
      · rw [if_neg ho]
        exact ih sel h

theorem selLoop_pairwise (k : Nat) (f : Nat → Nat → ℚ) (thr : ℚ) (ord : List Nat) :
    ∀ sel, List.Pairwise (fun j i => f i j ≤ thr) sel →
      List.Pairwise (fun j i => f i j ≤ thr) (selLoop k (simOK (some f) thr) ord sel) := by
  induction ord with
  | nil => intro sel h; simpa [selLoop] using h
  | cons i rest ih =>
    intro sel h
    unfold selLoop
    by_cases hk : k ≤ sel.length
    · rw [if_pos hk]; exact h
    · rw [if_neg hk]
      by_cases ho : simOK (some f) thr sel i = true
      · rw [if_pos ho]
        refine ih (sel ++ [i]) ?_
        rw [List.pairwise_append]
        refine ⟨h, List.pairwise_singleton _ _, ?_⟩
        intro a ha b hb
        have hb' : b = i := by simpa using hb
        have hall : ∀ x ∈ sel, f i x ≤ thr := by simpa [simOK] using ho
        rw [hb']
        exact hall a ha
      · rw [if_neg ho]
        exact ih sel h

theorem selLoop_no_sim (k : Nat) (ok : List Nat → Nat → Bool)
    (hok : ∀ sel i, ok sel i = true) (ord : List Nat) :
    ∀ sel, sel.length ≤ k → selLoop k ok ord sel = sel ++ ord.take (k - sel.length) := by
  induction ord with
  | nil => intro sel _; simp [selLoop]
  | cons i rest ih =>
    intro sel h
    unfold selLoop
    by_cases hk : k ≤ sel.length
    · rw [if_pos hk]
      have h0 : k - sel.length = 0 := by omega
      simp [h0]
    · rw [if_neg hk, if_pos (hok sel i)]
      rw [ih (sel ++ [i]) (by simp only [List.length_append, List.length_cons, List.length_nil]; omega)]
      have h2 : k - sel.length = (k - (sel.length + 1)) + 1 := by omega
      simp [h2, List.take_succ_cons]

/-- Claim C5: the selector iterates a stable score-descending order (a
permutation of the candidate indices, strictly larger score first and
ties in input order), admits a candidate only when its similarity to
every earlier admitted one is at most the threshold, never returns more
than k, returns the plain top-k when no embedding vectors are
available, and admits exactly one of three identical candidates
(pairwise similarity 1.0) for k = 3 under any threshold below 1. -/
theorem claimC5_diversity (scores : List ℚ) (f : Nat → Nat → ℚ) (k : Nat) (thr : ℚ) :
    (demoOrder scores).Perm (List.range scores.length) ∧
    List.Pairwise (fun i j => scoreAt scores j < scoreAt scores i ∨
      (scoreAt scores i = scoreAt scores j ∧ i < j)) (demoOrder scores) ∧
    (selectTopK scores (some f) k thr).length ≤ k ∧
    (selectTopK scores none k thr).length ≤ k ∧
    List.Pairwise (fun j i => f i j ≤ thr) (selectTopK scores (some f) k thr) ∧
    selectTopK scores none k thr = (demoOrder scores).take k ∧
    (thr < 1 → selectTopK [1, 1, 1] (some (fun _ _ => 1)) 3 thr = [0]) := by
  haveI := demoRel_total scores
  haveI := demoRel_trans scores
  have hperm : (demoOrder scores).Perm (List.range scores.length) :=
    List.perm_insertionSort _ _
  have hsorted : List.Pairwise (demoRel scores) (demoOrder scores) :=
    List.sorted_insertionSort _ _
  have hnodup : (demoOrder scores).Nodup := hperm.symm.nodup (List.nodup_range _)
  refine ⟨hperm, ?_, ?_, ?_, ?_, ?_, ?_⟩
  · refine (hsorted.and hnodup).imp ?_
    rintro a b ⟨hr, hne⟩
    rcases hr with h | ⟨he, hle⟩
    · exact Or.inl h
    · exact Or.inr ⟨he, lt_of_le_of_ne hle hne⟩
  · exact selLoop_length_le k _ (demoOrder scores) [] (by simp)
  · exact selLoop_length_le k _ (demoOrder scores) [] (by simp)
  · exact selLoop_pairwise k f thr (demoOrder scores) [] List.Pairwise.nil
  · have h := selLoop_no_sim k (simOK none thr) (fun _ _ => rfl) (demoOrder scores) [] (by simp)
    simpa [selectTopK] using h
  · intro h
    have hd : decide ((1 : ℚ) ≤ thr) = false := decide_eq_false (not_le.mpr h)
    show selLoop 3 (simOK (some fun _ _ => 1) thr) (demoOrder [1, 1, 1]) [] = [0]
    rw [show demoOrder [1, 1, 1] = [0, 1, 2] from by decide]
    simp [selLoop, simOK, hd]


theorem claimC5_witness : selectTopK [1, 1, 1] (some (fun _ _ => 1)) 3 0 = [0] :=
  (claimC5_diversity [1, 1, 1] (fun _ _ => 1) 3 0).2.2.2.2.2.2 (by simp)

theorem dec85 : decToRat false ['8', '5'] none = 85 := by
  have h : decToRat false ['8', '5'] none = (digitsToNat ['8', '5'] : ℚ) + 0 := rfl
  rw [h, show digitsToNat ['8', '5'] = 85 from rfl]
  norm_num

theorem combined_respAll85 : combinedFilter (.ok respAll85) = ⟨1, 1, 1, 1, 1, 1, 1⟩ := by
  have h : combinedFilter (.ok respAll85) =
      ⟨clamp01 (decToRat false ['8', '5'] none), clamp01 (decToRat false ['8', '5'] none),
       clamp01 (decToRat false ['8', '5'] none), clamp01 (decToRat false ['8', '5'] none),
       clamp01 (decToRat false ['8', '5'] none), clamp01 (decToRat false ['8', '5'] none),
       clamp01 (decToRat false ['8', '5'] none)⟩ := rfl
  rw [h, dec85]
  norm_num [clamp01]

theorem combined_fbText85 :
    combinedFilter (.ok fbText85) = ⟨17/20, 17/20, 17/20, 1/2, 1/2, 1/2, 1/2⟩ := by
  have h : combinedFilter (.ok fbText85) =
      ⟨clamp01 (pctNorm (decToRat false ['8', '5'] none)),
       clamp01 (pctNorm (decToRat false ['8', '5'] none)),
       clamp01 (pctNorm (decToRat false ['8', '5'] none)), 1/2, 1/2, 1/2, 1/2⟩ := rfl
  rw [h, dec85]
  have hp : pctNorm 85 = 85/100 := by
    unfold pctNorm
    rw [if_pos (by norm_num)]
  rw [hp]
  norm_num [clamp01]

/-- Claim C1 (amended): the divide-by-100 normalization of
percentage-formatted scores happens only in the regex text fallback and
only for pkr / lfr / slfr (raw 85 is stored as 0.85 there; the quality
dimensions are fixed at 0.5); in the strict JSON parse branch every raw
value is clamped to [0,1] with no rescaling, so raw 85 is stored as
1.0. -/
theorem claimC1_percentage_normalization :
    (∀ resp v, parseJsonResponse resp = none →
      searchScore ['p', 'k', 'r'] resp = some v →
      (combinedFilter (.ok resp)).pkr = clamp01 (pctNorm v)) ∧
    (∀ resp v, parseJsonResponse resp = none →
      searchScore ['l', 'f', 'r'] resp = some v →
      (combinedFilter (.ok resp)).lfr = clamp01 (pctNorm v)) ∧
    (∀ resp v, parseJsonResponse resp = none →
      searchScore ['s', 'l', 'f', 'r'] resp = some v →
      (combinedFilter (.ok resp)).slfr = clamp01 (pctNorm v)) ∧
    (∀ resp, parseJsonResponse resp = none →
      (combinedFilter (.ok resp)).minimality = 1/2 ∧
        (combinedFilter (.ok resp)).fluency = 1/2 ∧
        (combinedFilter (.ok resp)).labelDeterminism = 1/2 ∧
        (combinedFilter (.ok resp)).faithfulness = 1/2) ∧
    combinedFilter (.ok fbText85) = ⟨17/20, 17/20, 17/20, 1/2, 1/2, 1/2, 1/2⟩ ∧
    combinedFilter (.ok respAll85) = ⟨1, 1, 1, 1, 1, 1, 1⟩ := by
  have hfb : ∀ resp, parseJsonResponse resp = none →
      combinedFilter (.ok resp) =
        ⟨clamp01 (pctNorm ((searchScore ['p', 'k', 'r'] resp).getD (1/2))),
         clamp01 (pctNorm ((searchScore ['l', 'f', 'r'] resp).getD 0)),
         clamp01 (pctNorm ((searchScore ['s', 'l', 'f', 'r'] resp).getD 0)),
         1/2, 1/2, 1/2, 1/2⟩ := by
    intro resp hp
    unfold combinedFilter
    dsimp only
    rw [hp]
  refine ⟨?_, ?_, ?_, ?_, combined_fbText85, combined_respAll85⟩
  · intro resp v hp hs
    rw [hfb resp hp, hs]
    rfl
  · intro resp v hp hs
    rw [hfb resp hp, hs]
    rfl
  · intro resp v hp hs
    rw [hfb resp hp, hs]
    rfl
  · intro resp hp
    rw [hfb resp hp]
    exact ⟨rfl, rfl, rfl, rfl⟩

/-- Claim C1, counterexample: a response whose strict JSON parse
succeeds with `pkr_score` 85 stores pkr = 1.0, not 0.85 — the JSON
branch clamps without dividing by 100. -/
theorem claimC1_counterexample :
    (parseJsonResponse respAll85).isSome = true ∧
    (combinedFilter (.ok respAll85)).pkr = 1 ∧
    ¬ (combinedFilter (.ok respAll85)).pkr = 85/100 := by
  refine ⟨rfl, ?_, ?_⟩
  · rw [combined_respAll85]
  · rw [combined_respAll85]
    norm_num

/-- Claim C6: the extractor fails with its typed no-JSON error exactly
when the (possibly code-block-sliced) text has no opening brace, no
closing brace, or the last closing brace at or before the first opening
brace; otherwise it strict-parses the brace-delimited substring,
applies exactly one repair pass and one retry on failure, and fails
with the typed parse error when the retry also fails. -/
theorem claimC6_extractor :
    (∀ s, strictJson s = .error noJsonMsg ↔ braceSpan (sliceFence s) = none) ∧
    (∀ s i j v, braceSpan (sliceFence s) = some (i, j) →
      jsonLoads (pySlice (sliceFence s) i j) = some v →
      strictJson s = .ok v) ∧
    (∀ s i j v, braceSpan (sliceFence s) = some (i, j) →
      jsonLoads (pySlice (sliceFence s) i j) = none →
      jsonLoads (repairJson (pySlice (sliceFence s) i j)) = some v →
      strictJson s = .ok v) ∧
    (∀ s i j, braceSpan (sliceFence s) = some (i, j) →
      jsonLoads (pySlice (sliceFence s) i j) = none →
      jsonLoads (repairJson (pySlice (sliceFence s) i j)) = none →
      strictJson s = .error parseFailMsg) ∧
    (∀ t, braceSpan t = none ↔
      (findIdxC (fun c => c = '{') t = none ∨ rfindIdxC (fun c => c = '}') t = none ∨
        ∃ i j, findIdxC (fun c => c = '{') t = some i ∧
          rfindIdxC (fun c => c = '}') t = some j ∧ j ≤ i)) := by
  refine ⟨?_, ?_, ?_, ?_, ?_⟩
  · intro s
    constructor
    · intro h
      cases hb : braceSpan (sliceFence s) with
      | none => rfl
      | some ij =>
        exfalso
        rcases ij with ⟨i, j⟩
        unfold strictJson at h
        dsimp only at h
        rw [hb] at h
        dsimp only at h
        cases h1 : jsonLoads (pySlice (sliceFence s) i j) with
        | some v => rw [h1] at h; exact Except.noConfusion h
        | none =>
          rw [h1] at h
          cases h2 : jsonLoads (repairJson (pySlice (sliceFence s) i j)) with
          | some v => rw [h2] at h; exact Except.noConfusion h
          | none =>
            rw [h2] at h
            have := Except.error.inj h
            exact absurd this (by decide)
    · intro hb
      unfold strictJson
      dsimp only
      rw [hb]
  · intro s i j v hb h1
    unfold strictJson
    dsimp only
    rw [hb]
    dsimp only
    rw [h1]
  · intro s i j v hb h1 h2
    unfold strictJson
    dsimp only
    rw [hb]
    dsimp only
    rw [h1, h2]
  · intro s i j hb h1 h2
    unfold strictJson
    dsimp only
    rw [hb]
    dsimp only
    rw [h1, h2]
  · intro t
    unfold braceSpan
    cases hf : findIdxC (fun c => c = '{') t with
    | none =>
      constructor
      · intro _
        exact Or.inl rfl
      · intro _
        cases hr : rfindIdxC (fun c => c = '}') t <;> rfl
    | some i =>
      cases hr : rfindIdxC (fun c => c = '}') t with
      | none =>
        constructor
        · intro _
          exact Or.inr (Or.inl rfl)
        · intro _
          rfl
      | some j =>
        by_cases hij : j ≤ i
        · constructor
          · intro _
            exact Or.inr (Or.inr ⟨i, j, rfl, rfl, hij⟩)
          · intro _
            show (if j ≤ i then (none : Option (Nat × Nat)) else some (i, j)) = none
            rw [if_pos hij]
        · constructor
          · intro h
            exfalso
            have h2 : (if j ≤ i then (none : Option (Nat × Nat)) else some (i, j)) = none := h
            rw [if_neg hij] at h2
            exact Option.noConfusion h2
          · intro h
            rcases h with h | h | ⟨i2, j2, hi2, hj2, hle⟩
            · exact Option.noConfusion h
            · exact Option.noConfusion h
            · exfalso
              rw [Option.some.injEq] at hi2 hj2
              omega

/-! ### Parse-print roundtrip for the JSON model -/

theorem hexVal_hexDigit : ∀ m : Nat, m < 16 → hexVal (hexDigit m) = some m := by decide

theorem parse_esc_pair (e ch : Char) (he : escChar e = some ch) (he2 : ¬ e = 'u') (T : List Char) :
    parseStrBody ('\\' :: e :: T) = (parseStrBody T).map (fun pr => (ch :: pr.1, pr.2)) := by
  conv_lhs => rw [parseStrBody.eq_def]
  conv_lhs => dsimp only
  rw [if_neg (by decide : ¬ ('\\' : Char) = '"'), if_pos (rfl : ('\\' : Char) = '\\'),
    if_neg he2, he]

theorem parse_u_escape (c : Char) (hlt : c.toNat < 0x20) (T : List Char) :
    parseStrBody ('\\' :: 'u' :: '0' :: '0' ::
        hexDigit (c.toNat / 16) :: hexDigit (c.toNat % 16) :: T) =
      (parseStrBody T).map (fun pr => (c :: pr.1, pr.2)) := by
  conv_lhs => rw [parseStrBody.eq_def]
  conv_lhs => dsimp only
  rw [if_neg (by decide : ¬ ('\\' : Char) = '"'), if_pos (rfl : ('\\' : Char) = '\\'),
    if_pos (rfl : ('u' : Char) = 'u')]
  rw [show hexVal '0' = some 0 from rfl,
    hexVal_hexDigit _ (by omega), hexVal_hexDigit _ (by omega)]
  dsimp only
  rw [show ((0 * 16 + 0) * 16 + c.toNat / 16) * 16 + c.toNat % 16 = c.toNat from by omega]
  rw [if_pos (by omega : c.toNat < 0xd800)]
  rw [Char.ofNat_toNat]

theorem parseStrBody_escape (s : List Char) : ∀ rest,
    parseStrBody (escBody s ++ '"' :: rest) = some (s, rest) := by
  induction s with
  | nil =>
    intro rest
    show parseStrBody ('"' :: rest) = some ([], rest)
    conv_lhs => rw [parseStrBody.eq_def]
    conv_lhs => dsimp only
    rw [if_pos (rfl : ('"' : Char) = '"')]
  | cons c s ih =>
    intro rest
    by_cases h1 : c = '"'
    · subst h1
      change parseStrBody ('\\' :: '"' :: (escBody s ++ '"' :: rest)) = _
      rw [parse_esc_pair '"' '"' rfl (by decide), ih rest]
      rfl
    · by_cases h2 : c = '\\'
      · subst h2
        change parseStrBody ('\\' :: '\\' :: (escBody s ++ '"' :: rest)) = _
        rw [parse_esc_pair '\\' '\\' rfl (by decide), ih rest]
        rfl
      · by_cases h3 : c = '\n'
        · subst h3
          change parseStrBody ('\\' :: 'n' :: (escBody s ++ '"' :: rest)) = _
          rw [parse_esc_pair 'n' '\n' rfl (by decide), ih rest]
          rfl
        · by_cases h4 : c = '\t'
          · subst h4
            change parseStrBody ('\\' :: 't' :: (escBody s ++ '"' :: rest)) = _
            rw [parse_esc_pair 't' '\t' rfl (by decide), ih rest]
            rfl
          · by_cases h5 : c = '\r'
            · subst h5
              change parseStrBody ('\\' :: 'r' :: (escBody s ++ '"' :: rest)) = _
              rw [parse_esc_pair 'r' '\r' rfl (by decide), ih rest]
              rfl
            · by_cases h6 : c = '\x08'
              · subst h6
                change parseStrBody ('\\' :: 'b' :: (escBody s ++ '"' :: rest)) = _
                rw [parse_esc_pair 'b' '\x08' rfl (by decide), ih rest]
                rfl
              · by_cases h7 : c = '\x0c'
                · subst h7
                  change parseStrBody ('\\' :: 'f' :: (escBody s ++ '"' :: rest)) = _
                  rw [parse_esc_pair 'f' '\x0c' rfl (by decide), ih rest]
                  rfl
                · by_cases hlt : c.toNat < 0x20
                  · have hesc : escapeChar c =
                        ['\\', 'u', '0', '0', hexDigit (c.toNat / 16), hexDigit (c.toNat % 16)] := by
                      unfold escapeChar
                      rw [if_neg h1, if_neg h2, if_neg h3, if_neg h4, if_neg h5, if_neg h6,
                        if_neg h7, if_pos hlt]
                    have hlist : escBody (c :: s) ++ '"' :: rest =
                        '\\' :: 'u' :: '0' :: '0' :: hexDigit (c.toNat / 16) ::
                          hexDigit (c.toNat % 16) :: (escBody s ++ '"' :: rest) := by
                      rw [show escBody (c :: s) = escapeChar c ++ escBody s from rfl, hesc]
                      rfl
                    rw [hlist, parse_u_escape c hlt, ih rest]
                    rfl
                  · have hesc : escapeChar c = [c] := by
                      unfold escapeChar
                      rw [if_neg h1, if_neg h2, if_neg h3, if_neg h4, if_neg h5, if_neg h6,
                        if_neg h7, if_neg hlt]
                    have hlist : escBody (c :: s) ++ '"' :: rest =
                        c :: (escBody s ++ '"' :: rest) := by
                      rw [show escBody (c :: s) = escapeChar c ++ escBody s from rfl, hesc]
                      rfl
                    rw [hlist]
                    conv_lhs => rw [parseStrBody.eq_def]
                    conv_lhs => dsimp only
                    rw [if_neg h1, if_neg h2, if_neg hlt, ih rest]
                    rfl

theorem takeWhile_digits (ds : List Char) (hds : ∀ c ∈ ds, c.isDigit = true) :
    ∀ rest, (∀ c, rest.head? = some c → c.isDigit = false) →
      (ds ++ rest).takeWhile Char.isDigit = ds := by
  induction ds with
  | nil =>
    intro rest hrest
    cases rest with
    | nil => rfl
    | cons r rs => simp [List.takeWhile_cons, hrest r rfl]
  | cons d ds ih =>
    intro rest hrest
    have hd : d.isDigit = true := hds d (List.mem_cons_self _ _)
    simp [List.takeWhile_cons, hd, ih (fun c hc => hds c (List.mem_cons_of_mem _ hc)) rest hrest]

theorem dropWhile_digits (ds : List Char) (hds : ∀ c ∈ ds, c.isDigit = true) :
    ∀ rest, (∀ c, rest.head? = some c → c.isDigit = false) →
      (ds ++ rest).dropWhile Char.isDigit = rest := by
  induction ds with
  | nil =>
    intro rest hrest
    cases rest with
    | nil => rfl
    | cons r rs => simp [List.dropWhile_cons, hrest r rfl]
  | cons d ds ih =>
    intro rest hrest
    have hd : d.isDigit = true := hds d (List.mem_cons_self _ _)
    simp [List.dropWhile_cons, hd, ih (fun c hc => hds c (List.mem_cons_of_mem _ hc)) rest hrest]

theorem parseDigits_split (ds : List Char) (hds : ∀ c ∈ ds, c.isDigit = true)
    (rest : List Char) (hrest : ∀ c, rest.head? = some c → c.isDigit = false) :
    parseDigits (ds ++ rest) = (ds, rest) := by
  unfold parseDigits
  rw [takeWhile_digits ds hds rest hrest, dropWhile_digits ds hds rest hrest]

theorem digit_ne (c : Char) (h : c.isDigit = true) : c ≠ '-' ∧ c ≠ '.' := by
  constructor <;> intro he <;> rw [he] at h <;> exact absurd h (by decide)

theorem headOfAppend (xs rest : List Char) (c : Char) (h : xs.head? = some c) :
    (xs ++ rest).head? = some c := by
  cases xs with
  | nil => exact Option.noConfusion h
  | cons a l => simpa using h

theorem parseNum_leadZeroFalse (d : Char) (dtl : List Char)
    (hlead : (d :: dtl).head? = some '0' → (d :: dtl).length = 1) :
    ¬ ((d :: dtl).head? = some '0' ∧ (d :: dtl).length ≠ 1) := by
  rintro ⟨h0, h1⟩
  exact h1 (hlead h0)

theorem parseNum_print (neg : Bool) (ip : List Char) (fp : Option (List Char))
    (hip : intPartOK ip)
    (hfp : ∀ f, fp = some f → digitsOK f)
    (rest : List Char) (hrest : ∀ c, rest.head? = some c → c.isDigit = false ∧ c ≠ '.') :
    parseNum (printJson (.num neg ip fp) ++ rest) = some (.num neg ip fp, rest) := by
  obtain ⟨⟨hipne, hipd⟩, hlead⟩ := hip
  have hrestd : ∀ c, rest.head? = some c → c.isDigit = false := fun c hc => (hrest c hc).1
  have hrestdot : ¬ rest.head? = some '.' := fun hdot => (hrest '.' hdot).2 rfl
  cases ip with
  | nil => exact absurd rfl hipne
  | cons d dtl =>
    have hd : d.isDigit = true := hipd d (List.mem_cons_self _ _)
    have hnod : ¬ ((some d : Option Char) = some '-') :=
      fun h => (digit_ne d hd).1 (Option.some.inj h)
    have hempty : ¬ (d :: dtl).isEmpty = true := by simp
    have hzero := parseNum_leadZeroFalse d dtl hlead
    cases fp with
    | none =>
      have hsplit : parseDigits ((d :: dtl) ++ rest) = (d :: dtl, rest) :=
        parseDigits_split _ hipd rest hrestd
      cases neg with
      | false =>
        have hform : printJson (.num false (d :: dtl) none) ++ rest = (d :: dtl) ++ rest := by
          show (([] : List Char) ++ (d :: dtl) ++ []) ++ rest = _
          simp
        rw [hform]
        unfold parseNum
        rw [headOfAppend (d :: dtl) rest d rfl]
        rw [if_neg hnod]
        unfold parseNumCore
        dsimp only
        rw [hsplit]
        dsimp only
        rw [if_neg hempty, if_neg hzero, if_neg hrestdot]
      | true =>
        have hform : printJson (.num true (d :: dtl) none) ++ rest =
            '-' :: ((d :: dtl) ++ rest) := by
          show ((['-'] ++ (d :: dtl)) ++ []) ++ rest = _
          simp
        rw [hform]
        unfold parseNum
        rw [List.head?_cons]
        rw [if_pos rfl]
        dsimp only [List.tail_cons]
        unfold parseNumCore
        dsimp only
        rw [hsplit]
        dsimp only
        rw [if_neg hempty, if_neg hzero, if_neg hrestdot]
    | some f =>
      have hfd := hfp f rfl
      have hdot : ∀ c, ('.' :: (f ++ rest)).head? = some c → c.isDigit = false := by
        intro c hc
        rw [List.head?_cons, Option.some.injEq] at hc
        rw [← hc]
        decide
      have hsplit : parseDigits ((d :: dtl) ++ ('.' :: (f ++ rest))) =
          (d :: dtl, '.' :: (f ++ rest)) :=
        parseDigits_split _ hipd _ hdot
      have hsplit2 : parseDigits (f ++ rest) = (f, rest) :=
        parseDigits_split f hfd.2 rest hrestd
      have hfne : ¬ f.isEmpty = true := by
        cases f with
        | nil => exact absurd rfl hfd.1
        | cons a l => simp
      have hdotpos : ('.' :: (f ++ rest)).head? = some '.' := rfl
      cases neg with
      | false =>
        have hform : printJson (.num false (d :: dtl) (some f)) ++ rest =
            (d :: dtl) ++ ('.' :: (f ++ rest)) := by
          show (([] : List Char) ++ (d :: dtl) ++ ('.' :: f)) ++ rest = _
          simp
        rw [hform]
        unfold parseNum
        rw [headOfAppend (d :: dtl) _ d rfl]
        rw [if_neg hnod]
        unfold parseNumCore
        dsimp only
        rw [hsplit]
        dsimp only
        rw [if_neg hempty, if_neg hzero, if_pos hdotpos]
        dsimp only [List.tail_cons]
        rw [hsplit2]
        dsimp only
        rw [if_neg hfne]
      | true =>
        have hform : printJson (.num true (d :: dtl) (some f)) ++ rest =
            '-' :: ((d :: dtl) ++ ('.' :: (f ++ rest))) := by
          show ((['-'] ++ (d :: dtl)) ++ ('.' :: f)) ++ rest = _
          simp
        rw [hform]
        unfold parseNum
        rw [List.head?_cons]
        rw [if_pos rfl]
        dsimp only [List.tail_cons]
        unfold parseNumCore
        dsimp only
        rw [hsplit]
        dsimp only
        rw [if_neg hempty, if_neg hzero, if_pos hdotpos]
        dsimp only [List.tail_cons]
        rw [hsplit2]
        dsimp only
        rw [if_neg hfne]

theorem jsize_pos : ∀ v : Json, 1 ≤ jsize v := by
  intro v
  cases v <;> simp [jsize]

theorem digit_not_ws (c : Char) (h : c.isDigit = true) : isJsonWs c = false := by
  by_contra hw
  have hw2 : isJsonWs c = true := by
    cases hb : isJsonWs c
    · exact absurd hb hw
    · rfl
  unfold isJsonWs at hw2
  simp only [Bool.or_eq_true, decide_eq_true_eq] at hw2
  rcases hw2 with ((h1 | h1) | h1) | h1 <;> rw [h1] at h <;> exact absurd h (by decide)

theorem not_prefix_head (p c : Char) (ps T : List Char) (h : ¬ c = p) :
    (p :: ps).isPrefixOf (c :: T) = false := by
  show (p == c && ps.isPrefixOf T) = false
  rw [beq_eq_false_iff_ne.mpr (fun he => h he.symm)]
  rfl

theorem objAppend_assoc : ∀ (a b c : JsonObj),
    objAppend (objAppend a b) c = objAppend a (objAppend b c)
  | .nil, _, _ => rfl
  | .cons k v rest, b, c => by
    show JsonObj.cons k v (objAppend (objAppend rest b) c) =
      JsonObj.cons k v (objAppend rest (objAppend b c))
    rw [objAppend_assoc rest b c]

theorem arrAppend_assoc : ∀ (a b c : JsonArr),
    arrAppend (arrAppend a b) c = arrAppend a (arrAppend b c)
  | .nil, _, _ => rfl
  | .cons v rest, b, c => by
    show JsonArr.cons v (arrAppend (arrAppend rest b) c) =
      JsonArr.cons v (arrAppend rest (arrAppend b c))
    rw [arrAppend_assoc rest b c]

theorem arrSnoc_append : ∀ (a : JsonArr) (v : Json),
    arrSnoc a v = arrAppend a (.cons v .nil)
  | .nil, _ => rfl
  | .cons v0 rest, v => by
    show JsonArr.cons v0 (arrSnoc rest v) = JsonArr.cons v0 (arrAppend rest (.cons v .nil))
    rw [arrSnoc_append rest v]

theorem objUpsert_fresh : ∀ (acc : JsonObj) (k : List Char) (v : Json),
    objHasKey acc k = false → objUpsert acc k v = objAppend acc (.cons k v .nil)
  | .nil, _, _, _ => rfl
  | .cons k0 v0 rest, k, v, h => by
    unfold objHasKey at h
    simp only [Bool.or_eq_false_iff, decide_eq_false_iff_not] at h
    show (if k0 = k then JsonObj.cons k0 v rest else JsonObj.cons k0 v0 (objUpsert rest k v)) = _
    rw [if_neg h.1, objUpsert_fresh rest k v h.2]
    rfl

theorem objHasKey_append : ∀ (a b : JsonObj) (k : List Char),
    objHasKey (objAppend a b) k = (objHasKey a k || objHasKey b k)
  | .nil, _, _ => rfl
  | .cons k0 v0 rest, b, k => by
    show (decide (k0 = k) || objHasKey (objAppend rest b) k) = _
    rw [objHasKey_append rest b k]
    show _ = ((decide (k0 = k) || objHasKey rest k) || objHasKey b k)
    rw [Bool.or_assoc]

theorem dwFalse (c : Char) (l : List Char) (h : isJsonWs c = false) :
    (c :: l).dropWhile isJsonWs = c :: l := by
  rw [List.dropWhile_cons, h]
  rfl

theorem isPrefixOf_self_append (p rest : List Char) : p.isPrefixOf (p ++ rest) = true := by
  induction p with
  | nil => simp [List.isPrefixOf]
  | cons c cs ih =>
    show (c == c && cs.isPrefixOf (cs ++ rest)) = true
    rw [beq_self_eq_true, ih]
    rfl

theorem drop1 (c : Char) (l : List Char) : (c :: l).drop 1 = l := rfl

theorem delimOk_cons (c : Char) (hc : c.isDigit = false ∧ c ≠ '.') (l : List Char) :
    delimOk (c :: l) := by
  intro c2 hc2
  rw [List.head?_cons, Option.some.injEq] at hc2
  rw [← hc2]
  exact hc

theorem delimOk_nil : delimOk [] := by
  intro c hc
  exact Option.noConfusion hc

theorem keysFresh_extend : ∀ (kvs acc : JsonObj) (k : List Char) (v : Json),
    keysFresh acc kvs → objHasKey kvs k = false →
    keysFresh (objAppend acc (.cons k v .nil)) kvs
  | .nil, _, _, _, _, _ => trivial
  | .cons k2 v2 rest2, acc, k, v, hf, hk => by
    obtain ⟨h1, h2⟩ := hf
    unfold objHasKey at hk
    simp only [Bool.or_eq_false_iff, decide_eq_false_iff_not] at hk
    refine ⟨?_, keysFresh_extend rest2 acc k v h2 hk.2⟩
    rw [objHasKey_append, h1]
    show (false || (decide (k = k2) || false)) = false
    rw [decide_eq_false (fun he => hk.1 he.symm)]
    rfl

theorem keysFresh_nil : ∀ kvs : JsonObj, keysFresh JsonObj.nil kvs
  | .nil => trivial
  | .cons k v rest => ⟨rfl, keysFresh_nil rest⟩

theorem numPrintHead (neg : Bool) (ip : List Char) (fp : Option (List Char))
    (hip : intPartOK ip) (rest : List Char) :
    ∃ c T, printJson (.num neg ip fp) ++ rest = c :: T ∧ (c = '-' ∨ c.isDigit = true) := by
  cases neg with
  | true =>
    refine ⟨'-', (ip ++ (match fp with | some f => '.' :: f | none => [])) ++ rest, ?_, Or.inl rfl⟩
    show ((['-'] ++ ip) ++ _) ++ rest = _
    simp [List.append_assoc]
  | false =>
    obtain ⟨⟨hne, hd⟩, _⟩ := hip
    cases ip with
    | nil => exact absurd rfl hne
    | cons d dtl =>
      refine ⟨d, (dtl ++ (match fp with | some f => '.' :: f | none => [])) ++ rest, ?_,
        Or.inr (hd d (List.mem_cons_self _ _))⟩
      show (([] ++ (d :: dtl)) ++ _) ++ rest = _
      simp [List.append_assoc]

theorem printHeadSpec (v : Json) (hwf : jsonWF v) (X : List Char) :
    ∃ c T, printJson v ++ X = c :: T ∧ isJsonWs c = false ∧
      ¬ c = ']' ∧ ¬ c = '}' ∧ ¬ c = ',' := by
  cases v with
  | null => exact ⟨'n', _, rfl, by decide, by decide, by decide, by decide⟩
  | bool b =>
    cases b with
    | true => exact ⟨'t', _, rfl, by decide, by decide, by decide, by decide⟩
    | false => exact ⟨'f', _, rfl, by decide, by decide, by decide, by decide⟩
  | str cs =>
    refine ⟨'"', escBody cs ++ ('"' :: X), ?_, by decide, by decide, by decide, by decide⟩
    show ('"' :: (escBody cs ++ ['"'])) ++ X = _
    simp [List.append_assoc]
  | arr xs =>
    refine ⟨'[', printElems xs ++ (']' :: X), ?_, by decide, by decide, by decide, by decide⟩
    show ('[' :: (printElems xs ++ [']'])) ++ X = _
    simp [List.append_assoc]
  | obj kvs =>
    refine ⟨'{', printMembers kvs ++ ('}' :: X), ?_, by decide, by decide, by decide, by decide⟩
    show ('{' :: (printMembers kvs ++ ['}'])) ++ X = _
    simp [List.append_assoc]
  | num neg ip fp =>
    obtain ⟨c, T, hCT, hc⟩ := numPrintHead neg ip fp hwf.1 X
    refine ⟨c, T, hCT, ?_, ?_, ?_, ?_⟩
    · rcases hc with h | h
      · rw [h]; decide
      · exact digit_not_ws c h
    · rcases hc with h | h
      · rw [h]; decide
      · intro he; rw [he] at h; exact absurd h (by decide)
    · rcases hc with h | h
      · rw [h]; decide
      · intro he; rw [he] at h; exact absurd h (by decide)
    · rcases hc with h | h
      · rw [h]; decide
      · intro he; rw [he] at h; exact absurd h (by decide)

theorem parsePrint (fuel : Nat) :
    (∀ v rest, jsonWF v → jsize v ≤ fuel → delimOk rest →
      parseVal fuel (printJson v ++ rest) = some (v, rest)) ∧
    (∀ kvs acc rest, objWF kvs → kvs ≠ JsonObj.nil → keysFresh acc kvs → osize kvs ≤ fuel →
      parseMembers fuel (printMembers kvs ++ '}' :: rest) acc =
        some (.obj (objAppend acc kvs), rest)) ∧
    (∀ xs acc rest, arrWF xs → xs ≠ JsonArr.nil → asize xs ≤ fuel →
      parseElems fuel (printElems xs ++ ']' :: rest) acc =
        some (.arr (arrAppend acc xs), rest)) := by
  induction fuel with
  | zero =>
    refine ⟨?_, ?_, ?_⟩
    · intro v rest _ hsz _
      exact absurd hsz (by have := jsize_pos v; omega)
    · intro kvs acc rest _ hne _ hsz
      cases kvs with
      | nil => exact absurd rfl hne
      | cons k v rest2 =>
        exfalso
        have h1 : osize (.cons k v rest2) = 1 + max (jsize v) (osize rest2) := rfl
        omega
    · intro xs acc rest _ hne hsz
      cases xs with
      | nil => exact absurd rfl hne
      | cons v rest2 =>
        exfalso
        have h1 : asize (.cons v rest2) = 1 + max (jsize v) (asize rest2) := rfl
        omega
  | succ fuel ih =>
    refine ⟨?_, ?_, ?_⟩
    · intro v rest hwf hsz hdel
      cases v with
      | null =>
        have hform : printJson Json.null ++ rest = 'n' :: 'u' :: 'l' :: 'l' :: rest := rfl
        rw [hform]
        conv_lhs => rw [parseVal.eq_def]
        dsimp only
        rw [dwFalse _ _ (by decide)]
        have hpre : (['n', 'u', 'l', 'l'] : List Char).isPrefixOf
            ('n' :: 'u' :: 'l' :: 'l' :: rest) = true := isPrefixOf_self_append ['n', 'u', 'l', 'l'] rest
        rw [if_pos hpre]
        rfl
      | bool b =>
        cases b with
        | true =>
          have hform : printJson (Json.bool true) ++ rest = 't' :: 'r' :: 'u' :: 'e' :: rest := rfl
          rw [hform]
          conv_lhs => rw [parseVal.eq_def]
          dsimp only
          rw [dwFalse _ _ (by decide)]
          rw [not_prefix_head 'n' 't' _ _ (by decide), if_neg (by decide)]
          have hpre : (['t', 'r', 'u', 'e'] : List Char).isPrefixOf
              ('t' :: 'r' :: 'u' :: 'e' :: rest) = true :=
            isPrefixOf_self_append ['t', 'r', 'u', 'e'] rest
          rw [if_pos hpre]
          rfl
        | false =>
          have hform : printJson (Json.bool false) ++ rest =
              'f' :: 'a' :: 'l' :: 's' :: 'e' :: rest := rfl
          rw [hform]
          conv_lhs => rw [parseVal.eq_def]
          dsimp only
          rw [dwFalse _ _ (by decide)]
          rw [not_prefix_head 'n' 'f' _ _ (by decide), if_neg (by decide)]
          rw [not_prefix_head 't' 'f' _ _ (by decide), if_neg (by decide)]
          have hpre : (['f', 'a', 'l', 's', 'e'] : List Char).isPrefixOf
              ('f' :: 'a' :: 'l' :: 's' :: 'e' :: rest) = true :=
            isPrefixOf_self_append ['f', 'a', 'l', 's', 'e'] rest
          rw [if_pos hpre]
          rfl
      | num neg ip fp =>
        have hip : intPartOK ip := hwf.1
        have hfp : ∀ f, fp = some f → digitsOK f := by
          intro f hf
          have := hwf.2
          rw [hf] at this
          exact this
        obtain ⟨c, T, hCT, hc⟩ := numPrintHead neg ip fp hip rest
        have hcn : ¬ c = 'n' := by
          rcases hc with h | h
          · rw [h]; decide
          · intro he; rw [he] at h; exact absurd h (by decide)
        have hct : ¬ c = 't' := by
          rcases hc with h | h
          · rw [h]; decide
          · intro he; rw [he] at h; exact absurd h (by decide)
        have hcf : ¬ c = 'f' := by
          rcases hc with h | h
          · rw [h]; decide
          · intro he; rw [he] at h; exact absurd h (by decide)
        have hcq : ¬ (c :: T).head? = some '"' := by
          intro he
          rw [List.head?_cons, Option.some.injEq] at he
          rcases hc with h | h
          · rw [he] at h; exact absurd h (by decide)
          · rw [he] at h; exact absurd h (by decide)
        have hcbrace : ¬ (c :: T).head? = some '{' := by
          intro he
          rw [List.head?_cons, Option.some.injEq] at he
          rcases hc with h | h
          · rw [he] at h; exact absurd h (by decide)
          · rw [he] at h; exact absurd h (by decide)
        have hcbracket : ¬ (c :: T).head? = some '[' := by
          intro he
          rw [List.head?_cons, Option.some.injEq] at he
          rcases hc with h | h
          · rw [he] at h; exact absurd h (by decide)
          · rw [he] at h; exact absurd h (by decide)
        have hws : isJsonWs c = false := by
          rcases hc with h | h
          · rw [h]; decide
          · exact digit_not_ws c h
        rw [hCT]
        conv_lhs => rw [parseVal.eq_def]
        dsimp only
        rw [dwFalse _ _ hws]
        rw [not_prefix_head 'n' c _ _ hcn, if_neg (by decide)]
        rw [not_prefix_head 't' c _ _ hct, if_neg (by decide)]
        rw [not_prefix_head 'f' c _ _ hcf, if_neg (by decide)]
        rw [if_neg hcq, if_neg hcbrace, if_neg hcbracket]
        rw [← hCT]
        exact parseNum_print neg ip fp hip hfp rest hdel
      | str cs =>
        have hform : printJson (Json.str cs) ++ rest = '"' :: (escBody cs ++ '"' :: rest) := by
          show ('"' :: (escBody cs ++ ['"'])) ++ rest = _
          simp [List.append_assoc]
        rw [hform]
        conv_lhs => rw [parseVal.eq_def]
        dsimp only
        rw [dwFalse _ _ (by decide)]
        rw [not_prefix_head 'n' '"' _ _ (by decide), if_neg (by decide)]
        rw [not_prefix_head 't' '"' _ _ (by decide), if_neg (by decide)]
        rw [not_prefix_head 'f' '"' _ _ (by decide), if_neg (by decide)]
        have hq : ('"' :: (escBody cs ++ '"' :: rest)).head? = some '"' := rfl
        rw [if_pos hq]
        rw [drop1, parseStrBody_escape cs rest]
        rfl
      | arr xs =>
        cases xs with
        | nil =>
          have hform : printJson (Json.arr .nil) ++ rest = '[' :: ']' :: rest := rfl
          rw [hform]
          conv_lhs => rw [parseVal.eq_def]
          dsimp only
          rw [dwFalse _ _ (by decide)]
          rw [not_prefix_head 'n' '[' _ _ (by decide), if_neg (by decide)]
          rw [not_prefix_head 't' '[' _ _ (by decide), if_neg (by decide)]
          rw [not_prefix_head 'f' '[' _ _ (by decide), if_neg (by decide)]
          rw [if_neg (show ¬ ('[' :: ']' :: rest).head? = some '"' from by intro h; rw [List.head?_cons, Option.some.injEq] at h; exact absurd h (by decide))]
          rw [if_neg (show ¬ ('[' :: ']' :: rest).head? = some '{' from by intro h; rw [List.head?_cons, Option.some.injEq] at h; exact absurd h (by decide))]
          rw [if_pos (show ('[' :: ']' :: rest).head? = some '[' from rfl)]
          have hfuel : 1 ≤ fuel := by
            have : jsize (Json.arr .nil) = 2 := rfl
            omega
          cases fuel with
          | zero => omega
          | succ f =>
            rw [drop1]
            conv_lhs => rw [parseElems.eq_def]
            dsimp only
            rw [dwFalse _ _ (by decide)]
            rw [if_pos (show (']' :: rest).head? = some ']' from rfl)]
            rfl
        | cons v0 xs0 =>
          have hform : printJson (Json.arr (.cons v0 xs0)) ++ rest =
              '[' :: (printElems (.cons v0 xs0) ++ ']' :: rest) := by
            show ('[' :: (printElems (.cons v0 xs0) ++ [']'])) ++ rest = _
            simp [List.append_assoc]
          rw [hform]
          conv_lhs => rw [parseVal.eq_def]
          dsimp only
          rw [dwFalse _ _ (by decide)]
          rw [not_prefix_head 'n' '[' _ _ (by decide), if_neg (by decide)]
          rw [not_prefix_head 't' '[' _ _ (by decide), if_neg (by decide)]
          rw [not_prefix_head 'f' '[' _ _ (by decide), if_neg (by decide)]
          rw [if_neg (show ¬ ('[' :: (printElems (.cons v0 xs0) ++ ']' :: rest)).head? = some '"'
            from by intro h; rw [List.head?_cons, Option.some.injEq] at h; exact absurd h (by decide))]
          rw [if_neg (show ¬ ('[' :: (printElems (.cons v0 xs0) ++ ']' :: rest)).head? = some '{'
            from by intro h; rw [List.head?_cons, Option.some.injEq] at h; exact absurd h (by decide))]
          rw [if_pos (show ('[' :: (printElems (.cons v0 xs0) ++ ']' :: rest)).head? = some '['
            from rfl)]
          rw [drop1]
          have hsz2 : asize (.cons v0 xs0) ≤ fuel := by
            have h1 : jsize (Json.arr (.cons v0 xs0)) = asize (.cons v0 xs0) + 1 := rfl
            omega
          rw [ih.2.2 (.cons v0 xs0) .nil rest hwf (fun h => JsonArr.noConfusion h) hsz2]
          rfl
      | obj kvs =>
        cases kvs with
        | nil =>
          have hform : printJson (Json.obj .nil) ++ rest = '{' :: '}' :: rest := rfl
          rw [hform]
          conv_lhs => rw [parseVal.eq_def]
          dsimp only
          rw [dwFalse _ _ (by decide)]
          rw [not_prefix_head 'n' '{' _ _ (by decide), if_neg (by decide)]
          rw [not_prefix_head 't' '{' _ _ (by decide), if_neg (by decide)]
          rw [not_prefix_head 'f' '{' _ _ (by decide), if_neg (by decide)]
          rw [if_neg (show ¬ ('{' :: '}' :: rest).head? = some '"' from by intro h; rw [List.head?_cons, Option.some.injEq] at h; exact absurd h (by decide))]
          rw [if_pos (show ('{' :: '}' :: rest).head? = some '{' from rfl)]
          have hfuel : 1 ≤ fuel := by
            have : jsize (Json.obj .nil) = 2 := rfl
            omega
          cases fuel with
          | zero => omega
          | succ f =>
            rw [drop1]
            conv_lhs => rw [parseMembers.eq_def]
            dsimp only
            rw [dwFalse _ _ (by decide)]
            rw [if_pos (show ('}' :: rest).head? = some '}' from rfl)]
            rfl
        | cons k0 v0 kvs0 =>
          have hform : printJson (Json.obj (.cons k0 v0 kvs0)) ++ rest =
              '{' :: (printMembers (.cons k0 v0 kvs0) ++ '}' :: rest) := by
            show ('{' :: (printMembers (.cons k0 v0 kvs0) ++ ['}'])) ++ rest = _
            simp [List.append_assoc]
          rw [hform]
          conv_lhs => rw [parseVal.eq_def]
          dsimp only
          rw [dwFalse _ _ (by decide)]
          rw [not_prefix_head 'n' '{' _ _ (by decide), if_neg (by decide)]
          rw [not_prefix_head 't' '{' _ _ (by decide), if_neg (by decide)]
          rw [not_prefix_head 'f' '{' _ _ (by decide), if_neg (by decide)]
          rw [if_neg (show ¬ ('{' :: (printMembers (.cons k0 v0 kvs0) ++ '}' :: rest)).head? = some '"'
            from by intro h; rw [List.head?_cons, Option.some.injEq] at h; exact absurd h (by decide))]
          rw [if_pos (show ('{' :: (printMembers (.cons k0 v0 kvs0) ++ '}' :: rest)).head? = some '{'
            from rfl)]
          rw [drop1]
          have hsz2 : osize (.cons k0 v0 kvs0) ≤ fuel := by
            have h1 : jsize (Json.obj (.cons k0 v0 kvs0)) = osize (.cons k0 v0 kvs0) + 1 := rfl
            omega
          rw [ih.2.1 (.cons k0 v0 kvs0) .nil rest hwf (fun h => JsonObj.noConfusion h)
            (keysFresh_nil _) hsz2]
          rfl
    · intro kvs acc rest hwf hne hfresh hsz
      cases kvs with
      | nil => exact absurd rfl hne
      | cons k v kvs2 =>
        have hvwf : jsonWF v := hwf.1
        have hknotin : objHasKey kvs2 k = false := hwf.2.1
        have hwf2 : objWF kvs2 := hwf.2.2
        have hfk : objHasKey acc k = false := hfresh.1
        have hfresh2 : keysFresh acc kvs2 := hfresh.2
        have hmx : max (jsize v) (osize kvs2) ≤ fuel := by
          have hos : osize (.cons k v kvs2) = 1 + max (jsize v) (osize kvs2) := rfl
          omega
        have hjs : jsize v ≤ fuel := le_trans (Nat.le_max_left _ _) hmx
        have hos2 : osize kvs2 ≤ fuel := le_trans (Nat.le_max_right _ _) hmx
        cases kvs2 with
        | nil =>
          have hform : printMembers (.cons k v .nil) ++ '}' :: rest =
              '"' :: (escBody k ++ '"' :: (':' :: (printJson v ++ '}' :: rest))) := by
            show (escStr k ++ ':' :: printJson v) ++ '}' :: rest = _
            simp [escStr, List.append_assoc]
          rw [hform]
          conv_lhs => rw [parseMembers.eq_def]
          dsimp only
          rw [dwFalse _ _ (by decide)]
          rw [if_neg (show ¬ ('"' :: (escBody k ++ '"' :: (':' :: (printJson v ++ '}' :: rest)))).head? =
              some '}' from by
            intro h
            rw [List.head?_cons, Option.some.injEq] at h
            exact absurd h (by decide))]
          rw [if_pos (show ('"' :: (escBody k ++ '"' :: (':' :: (printJson v ++ '}' :: rest)))).head? =
              some '"' from rfl)]
          rw [drop1]
          rw [parseStrBody_escape k (':' :: (printJson v ++ '}' :: rest))]
          dsimp only
          rw [dwFalse _ _ (by decide)]
          rw [if_pos (show (':' :: (printJson v ++ '}' :: rest)).head? = some ':' from rfl)]
          rw [drop1]
          rw [ih.1 v ('}' :: rest) hvwf hjs (delimOk_cons '}' (by decide) rest)]
          dsimp only
          rw [dwFalse _ _ (by decide)]
          rw [if_neg (show ¬ ('}' :: rest).head? = some ',' from by
            intro h
            rw [List.head?_cons, Option.some.injEq] at h
            exact absurd h (by decide))]
          rw [if_pos (show ('}' :: rest).head? = some '}' from rfl)]
          rw [objUpsert_fresh acc k v hfk]
          rfl
        | cons k2 v2 kvs3 =>
          have hform : printMembers (.cons k v (.cons k2 v2 kvs3)) ++ '}' :: rest =
              '"' :: (escBody k ++ '"' :: (':' :: (printJson v ++
                ',' :: (printMembers (.cons k2 v2 kvs3) ++ '}' :: rest)))) := by
            show (escStr k ++ ':' :: printJson v ++ ',' :: printMembers (.cons k2 v2 kvs3)) ++
              '}' :: rest = _
            simp [escStr, List.append_assoc]
          rw [hform]
          conv_lhs => rw [parseMembers.eq_def]
          dsimp only
          rw [dwFalse _ _ (by decide)]
          rw [if_neg (show ¬ ('"' :: (escBody k ++ '"' :: (':' :: (printJson v ++
              ',' :: (printMembers (.cons k2 v2 kvs3) ++ '}' :: rest))))).head? = some '}' from by
            intro h
            rw [List.head?_cons, Option.some.injEq] at h
            exact absurd h (by decide))]
          rw [if_pos (show ('"' :: (escBody k ++ '"' :: (':' :: (printJson v ++
              ',' :: (printMembers (.cons k2 v2 kvs3) ++ '}' :: rest))))).head? = some '"' from rfl)]
          rw [drop1]
          rw [parseStrBody_escape k (':' :: (printJson v ++
            ',' :: (printMembers (.cons k2 v2 kvs3) ++ '}' :: rest)))]
          dsimp only
          rw [dwFalse _ _ (by decide)]
          rw [if_pos (show (':' :: (printJson v ++
              ',' :: (printMembers (.cons k2 v2 kvs3) ++ '}' :: rest))).head? = some ':' from rfl)]
          rw [drop1]
          rw [ih.1 v (',' :: (printMembers (.cons k2 v2 kvs3) ++ '}' :: rest)) hvwf hjs
            (delimOk_cons ',' (by decide) _)]
          dsimp only
          rw [dwFalse _ _ (by decide)]
          rw [if_pos (show (',' :: (printMembers (.cons k2 v2 kvs3) ++ '}' :: rest)).head? =
              some ',' from rfl)]
          rw [drop1]
          rw [objUpsert_fresh acc k v hfk]
          rw [ih.2.1 (.cons k2 v2 kvs3) (objAppend acc (.cons k v .nil)) rest hwf2
            (fun h => JsonObj.noConfusion h) (keysFresh_extend _ acc k v hfresh2 hknotin) hos2]
          rw [objAppend_assoc]
          rfl
    · intro xs acc rest hwf hne hsz
      cases xs with
      | nil => exact absurd rfl hne
      | cons v xs2 =>
        have hvwf : jsonWF v := hwf.1
        have hwf2 : arrWF xs2 := hwf.2
        have hmx : max (jsize v) (asize xs2) ≤ fuel := by
          have has : asize (.cons v xs2) = 1 + max (jsize v) (asize xs2) := rfl
          omega
        have hjs : jsize v ≤ fuel := le_trans (Nat.le_max_left _ _) hmx
        have has2 : asize xs2 ≤ fuel := le_trans (Nat.le_max_right _ _) hmx
        cases xs2 with
        | nil =>
          have hform : printElems (.cons v .nil) ++ ']' :: rest = printJson v ++ ']' :: rest := rfl
          rw [hform]
          conv_lhs => rw [parseElems.eq_def]
          dsimp only
          obtain ⟨c, T, hCT, hws, hrb, hbr2, hcomma⟩ := printHeadSpec v hvwf (']' :: rest)
          rw [hCT, dwFalse _ _ hws]
          rw [if_neg (show ¬ (c :: T).head? = some ']' from by
            intro h
            rw [List.head?_cons, Option.some.injEq] at h
            exact hrb h)]
          rw [← hCT]
          rw [ih.1 v (']' :: rest) hvwf hjs (delimOk_cons ']' (by decide) rest)]
          dsimp only
          rw [dwFalse _ _ (by decide)]
          rw [if_neg (show ¬ (']' :: rest).head? = some ',' from by
            intro h
            rw [List.head?_cons, Option.some.injEq] at h
            exact absurd h (by decide))]
          rw [if_pos (show (']' :: rest).head? = some ']' from rfl)]
          rw [arrSnoc_append]
          rfl
        | cons v2 xs3 =>
          have hform : printElems (.cons v (.cons v2 xs3)) ++ ']' :: rest =
              printJson v ++ (',' :: (printElems (.cons v2 xs3) ++ ']' :: rest)) := by
            show (printJson v ++ ',' :: printElems (.cons v2 xs3)) ++ ']' :: rest = _
            simp [List.append_assoc]
          rw [hform]
          conv_lhs => rw [parseElems.eq_def]
          dsimp only
          obtain ⟨c, T, hCT, hws, hrb, hbr2, hcomma⟩ := printHeadSpec v hvwf
            (',' :: (printElems (.cons v2 xs3) ++ ']' :: rest))
          rw [hCT, dwFalse _ _ hws]
          rw [if_neg (show ¬ (c :: T).head? = some ']' from by
            intro h
            rw [List.head?_cons, Option.some.injEq] at h
            exact hrb h)]
          rw [← hCT]
          rw [ih.1 v (',' :: (printElems (.cons v2 xs3) ++ ']' :: rest)) hvwf hjs
            (delimOk_cons ',' (by decide) _)]
          dsimp only
          rw [dwFalse _ _ (by decide)]
          rw [if_pos (show (',' :: (printElems (.cons v2 xs3) ++ ']' :: rest)).head? =
              some ',' from rfl)]
          rw [drop1]
          rw [arrSnoc_append]
          rw [ih.2.2 (.cons v2 xs3) (arrAppend acc (.cons v .nil)) rest hwf2
            (fun h => JsonArr.noConfusion h) has2]
          rw [arrAppend_assoc]
          rfl


theorem digitsOK_takeWhile (l : List Char) (hne : ¬ (l.takeWhile Char.isDigit).isEmpty = true) :
    digitsOK (l.takeWhile Char.isDigit) := by
  constructor
  · intro he
    rw [he] at hne
    exact hne rfl
  · intro c hc
    exact List.mem_takeWhile_imp hc

theorem parseNumCore_WF (neg : Bool) (s1 : List Char) (v : Json) (rest : List Char)
    (h : parseNumCore neg s1 = some (v, rest)) : jsonWF v := by
  unfold parseNumCore at h
  dsimp only at h
  split at h
  · exact Option.noConfusion h
  · next h1 =>
    split at h
    · exact Option.noConfusion h
    · next h2 =>
      split at h
      · split at h
        · exact Option.noConfusion h
        · next h3 =>
          rw [Option.some.injEq, Prod.mk.injEq] at h
          rw [← h.1]
          refine ⟨⟨digitsOK_takeWhile _ h1, ?_⟩, digitsOK_takeWhile _ h3⟩
          intro h0
          by_contra hlen
          exact h2 ⟨h0, hlen⟩
      · rw [Option.some.injEq, Prod.mk.injEq] at h
        rw [← h.1]
        refine ⟨⟨digitsOK_takeWhile _ h1, ?_⟩, trivial⟩
        intro h0
        by_contra hlen
        exact h2 ⟨h0, hlen⟩

theorem parseNum_WF (s : List Char) (v : Json) (rest : List Char)
    (h : parseNum s = some (v, rest)) : jsonWF v := by
  unfold parseNum at h
  split at h
  · exact parseNumCore_WF true s.tail v rest h
  · exact parseNumCore_WF false s v rest h

theorem objHasKey_upsert : ∀ (m : JsonObj) (k : List Char) (v : Json) (k2 : List Char),
    objHasKey (objUpsert m k v) k2 = (objHasKey m k2 || decide (k = k2))
  | .nil, k, v, k2 => by
    simp [objUpsert, objHasKey]
  | .cons k0 v0 rest, k, v, k2 => by
    unfold objUpsert
    by_cases he : k0 = k
    · rw [if_pos he]
      subst he
      unfold objHasKey
      cases hd : decide (k0 = k2) <;> simp [hd]
    · rw [if_neg he]
      unfold objHasKey
      rw [objHasKey_upsert rest k v k2, Bool.or_assoc]

theorem objWF_upsert : ∀ (m : JsonObj) (k : List Char) (v : Json),
    objWF m → jsonWF v → objWF (objUpsert m k v)
  | .nil, k, v, _, hv => ⟨hv, rfl, trivial⟩
  | .cons k0 v0 rest, k, v, hm, hv => by
    obtain ⟨hv0, hk0, hrest⟩ := hm
    unfold objUpsert
    by_cases he : k0 = k
    · rw [if_pos he]
      exact ⟨hv, hk0, hrest⟩
    · rw [if_neg he]
      refine ⟨hv0, ?_, objWF_upsert rest k v hrest hv⟩
      rw [objHasKey_upsert, hk0]
      rw [Bool.false_or]
      exact decide_eq_false (fun h2 => he h2.symm)

theorem arrWF_snoc : ∀ (acc : JsonArr) (v : Json), arrWF acc → jsonWF v → arrWF (arrSnoc acc v)
  | .nil, v, _, hv => ⟨hv, trivial⟩
  | .cons v0 rest, v, hacc, hv => ⟨hacc.1, arrWF_snoc rest v hacc.2 hv⟩

theorem parseWF (fuel : Nat) :
    (∀ s v rest, parseVal fuel s = some (v, rest) → jsonWF v) ∧
    (∀ s acc v rest, objWF acc → parseMembers fuel s acc = some (v, rest) → jsonWF v) ∧
    (∀ s acc v rest, arrWF acc → parseElems fuel s acc = some (v, rest) → jsonWF v) := by
  induction fuel with
  | zero =>
    exact ⟨fun s v rest h => Option.noConfusion h,
      fun s acc v rest _ h => Option.noConfusion h,
      fun s acc v rest _ h => Option.noConfusion h⟩
  | succ fuel ih =>
    refine ⟨?_, ?_, ?_⟩
    · intro s v rest h
      rw [parseVal.eq_def] at h
      dsimp only at h
      split at h
      · rw [Option.some.injEq, Prod.mk.injEq] at h
        rw [← h.1]
        trivial
      · split at h
        · rw [Option.some.injEq, Prod.mk.injEq] at h
          rw [← h.1]
          trivial
        · split at h
          · rw [Option.some.injEq, Prod.mk.injEq] at h
            rw [← h.1]
            trivial
          · split at h
            · rcases hp : parseStrBody ((s.dropWhile isJsonWs).drop 1) with _ | pr
              · rw [hp] at h
                exact Option.noConfusion h
              · rw [hp] at h
                simp only [Option.map_some', Option.some.injEq, Prod.mk.injEq] at h
                rw [← h.1]
                trivial
            · split at h
              · exact ih.2.1 _ .nil v rest trivial h
              · split at h
                · exact ih.2.2 _ .nil v rest trivial h
                · exact parseNum_WF _ v rest h
    · intro s acc v rest hacc h
      rw [parseMembers.eq_def] at h
      dsimp only at h
      split at h
      · split at h
        · rw [Option.some.injEq, Prod.mk.injEq] at h
          rw [← h.1]
          trivial
        · exact Option.noConfusion h
      · split at h
        · split at h
          · exact Option.noConfusion h
          · next k r1 heq =>
            split at h
            · split at h
              · exact Option.noConfusion h
              · next v2 r3 heq2 =>
                have hv2 : jsonWF v2 := ih.1 _ _ _ heq2
                split at h
                · exact ih.2.1 _ _ v rest (objWF_upsert acc k v2 hacc hv2) h
                · split at h
                  · rw [Option.some.injEq, Prod.mk.injEq] at h
                    rw [← h.1]
                    exact objWF_upsert acc k v2 hacc hv2
                  · exact Option.noConfusion h
            · exact Option.noConfusion h
        · exact Option.noConfusion h
    · intro s acc v rest hacc h
      rw [parseElems.eq_def] at h
      dsimp only at h
      split at h
      · split at h
        · rw [Option.some.injEq, Prod.mk.injEq] at h
          rw [← h.1]
          trivial
        · exact Option.noConfusion h
      · split at h
        · exact Option.noConfusion h
        · next v2 r1 heq2 =>
          have hv2 : jsonWF v2 := ih.1 _ _ _ heq2
          split at h
          · exact ih.2.2 _ _ v rest (arrWF_snoc acc v2 hacc hv2) h
          · split at h
            · rw [Option.some.injEq, Prod.mk.injEq] at h
              rw [← h.1]
              exact arrWF_snoc acc v2 hacc hv2
            · exact Option.noConfusion h

theorem printJson_len_pos : ∀ v : Json, jsonWF v → 1 ≤ (printJson v).length
  | .null, _ => by decide
  | .bool b, _ => by cases b <;> decide
  | .num neg ip fp, hwf => by
    have hip : ip ≠ [] := hwf.1.1.1
    have h1 : 1 ≤ ip.length := by
      cases ip with
      | nil => exact absurd rfl hip
      | cons _ _ => simp
    cases fp with
    | none =>
      have hp : printJson (Json.num neg ip none) =
          (if neg then ['-'] else []) ++ ip ++ ([] : List Char) := rfl
      rw [hp]
      simp only [List.length_append]
      omega
    | some f =>
      have hp : printJson (Json.num neg ip (some f)) =
          (if neg then ['-'] else []) ++ ip ++ ('.' :: f) := rfl
      rw [hp]
      simp only [List.length_append]
      omega
  | .str cs, _ => by
    have hp : printJson (Json.str cs) = '"' :: escBody cs ++ ['"'] := rfl
    rw [hp]
    simp
  | .arr xs, _ => by
    have hp : printJson (Json.arr xs) = '[' :: printElems xs ++ [']'] := rfl
    rw [hp]
    simp
  | .obj kvs, _ => by
    have hp : printJson (Json.obj kvs) = '{' :: printMembers kvs ++ ['}'] := rfl
    rw [hp]
    simp

mutual

theorem jsize_le : ∀ v : Json, jsonWF v → jsize v ≤ (printJson v).length + 1
  | .null, _ => by decide
  | .bool b, _ => by cases b <;> decide
  | .num _ _ _, _ => Nat.succ_le_succ (Nat.zero_le _)
  | .str _, _ => Nat.succ_le_succ (Nat.zero_le _)
  | .arr xs, hwf => by
    have h := asize_le xs hwf
    have hj : jsize (Json.arr xs) = asize xs + 1 := rfl
    have hl : (printJson (Json.arr xs)).length = (printElems xs).length + 2 := by
      have hp : printJson (Json.arr xs) = '[' :: printElems xs ++ [']'] := rfl
      rw [hp]; simp
    omega
  | .obj kvs, hwf => by
    have h := osize_le kvs hwf
    have hj : jsize (Json.obj kvs) = osize kvs + 1 := rfl
    have hl : (printJson (Json.obj kvs)).length = (printMembers kvs).length + 2 := by
      have hp : printJson (Json.obj kvs) = '{' :: printMembers kvs ++ ['}'] := rfl
      rw [hp]; simp
    omega

theorem asize_le : ∀ xs : JsonArr, arrWF xs → asize xs ≤ (printElems xs).length + 2
  | .nil, _ => by decide
  | .cons v .nil, hwf => by
    have h := jsize_le v hwf.1
    have ha : asize (JsonArr.cons v JsonArr.nil) = 1 + max (jsize v) 1 := rfl
    have hp : printElems (JsonArr.cons v JsonArr.nil) = printJson v := rfl
    rw [ha, hp]
    have hm : max (jsize v) 1 ≤ (printJson v).length + 1 :=
      Nat.max_le.mpr ⟨h, Nat.succ_le_succ (Nat.zero_le _)⟩
    omega
  | .cons v (.cons v2 rest), hwf => by
    have h1 := jsize_le v hwf.1
    have h2 := asize_le (JsonArr.cons v2 rest) hwf.2
    have hv1 := printJson_len_pos v hwf.1
    have ha : asize (JsonArr.cons v (JsonArr.cons v2 rest)) =
        1 + max (jsize v) (asize (JsonArr.cons v2 rest)) := rfl
    have hp : printElems (JsonArr.cons v (JsonArr.cons v2 rest)) =
        printJson v ++ ',' :: printElems (JsonArr.cons v2 rest) := rfl
    rw [ha, hp]
    have hl : (printJson v ++ ',' :: printElems (JsonArr.cons v2 rest)).length =
        (printJson v).length + (printElems (JsonArr.cons v2 rest)).length + 1 := by
      simp; omega
    have hm : max (jsize v) (asize (JsonArr.cons v2 rest)) ≤
        (printJson v).length + (printElems (JsonArr.cons v2 rest)).length + 1 :=
      Nat.max_le.mpr ⟨by omega, by omega⟩
    omega

theorem osize_le : ∀ kvs : JsonObj, objWF kvs → osize kvs ≤ (printMembers kvs).length + 2
  | .nil, _ => by decide
  | .cons k v .nil, hwf => by
    have h := jsize_le v hwf.1
    have ho : osize (JsonObj.cons k v JsonObj.nil) = 1 + max (jsize v) 1 := rfl
    have hp : printMembers (JsonObj.cons k v JsonObj.nil) = escStr k ++ ':' :: printJson v := rfl
    rw [ho, hp]
    have hl : (escStr k ++ ':' :: printJson v).length =
        (escStr k).length + (printJson v).length + 1 := by
      simp; omega
    have hm : max (jsize v) 1 ≤ (escStr k).length + (printJson v).length + 1 :=
      Nat.max_le.mpr ⟨by omega, by omega⟩
    omega
  | .cons k v (.cons k2 v2 rest), hwf => by
    have h1 := jsize_le v hwf.1
    have h2 := osize_le (JsonObj.cons k2 v2 rest) hwf.2.2
    have ho : osize (JsonObj.cons k v (JsonObj.cons k2 v2 rest)) =
        1 + max (jsize v) (osize (JsonObj.cons k2 v2 rest)) := rfl
    have hp : printMembers (JsonObj.cons k v (JsonObj.cons k2 v2 rest)) =
        escStr k ++ ':' :: printJson v ++ ',' :: printMembers (JsonObj.cons k2 v2 rest) := rfl
    rw [ho, hp]
    have hl : (escStr k ++ ':' :: printJson v ++ ',' :: printMembers (JsonObj.cons k2 v2 rest)).length =
        (escStr k).length + (printJson v).length +
          (printMembers (JsonObj.cons k2 v2 rest)).length + 2 := by
      simp; omega
    have hk : 1 ≤ (escStr k).length := by
      have he : escStr k = '"' :: escBody k ++ ['"'] := rfl
      rw [he]; simp
    have hm : max (jsize v) (osize (JsonObj.cons k2 v2 rest)) ≤
        (escStr k).length + (printJson v).length +
          (printMembers (JsonObj.cons k2 v2 rest)).length + 1 :=
      Nat.max_le.mpr ⟨by omega, by omega⟩
    omega

end

theorem jsonLoads_print (v : Json) (hwf : jsonWF v) : jsonLoads (printJson v) = some v := by
  have h := (parsePrint ((printJson v).length + 1)).1 v [] hwf
    (jsize_le v hwf) delimOk_nil
  rw [List.append_nil] at h
  unfold jsonLoads
  rw [h]
  rfl

theorem jsonLoads_WF (s : List Char) (v : Json) (h : jsonLoads s = some v) : jsonWF v := by
  unfold jsonLoads at h
  cases hp : parseVal (s.length + 1) s with
  | none => rw [hp] at h; exact Option.noConfusion h
  | some pr =>
    rw [hp] at h
    obtain ⟨w, rest⟩ := pr
    have hw := (parseWF (s.length + 1)).1 s w rest hp
    dsimp only at h
    split at h
    · injection h with h'
      rw [← h']
      exact hw
    · exact Option.noConfusion h

theorem findIdxC_cons_true (p : Char → Bool) (c : Char) (r : List Char) (h : p c = true) :
    findIdxC p (c :: r) = some 0 := by
  simp [findIdxC, h]

theorem rfindIdxC_last (p : Char → Bool) (xs : List Char) (c : Char) (h : p c = true) :
    rfindIdxC p (xs ++ [c]) = some xs.length := by
  unfold rfindIdxC
  have hrev : (xs ++ [c]).reverse = c :: xs.reverse := by simp
  rw [hrev, findIdxC_cons_true p c _ h]
  simp

theorem sliceFence_id (s : List Char) (h : containsSub s fenceJson = false) :
    sliceFence s = s := by
  have hn : findSubIdx fenceJson s = none := by
    cases hq : findSubIdx fenceJson s with
    | none => rfl
    | some k =>
      unfold containsSub at h
      rw [hq] at h
      simp at h
  unfold sliceFence
  rw [hn]

theorem braceSpan_print (kvs : JsonObj) :
    braceSpan (printJson (Json.obj kvs)) = some (0, (printMembers kvs).length + 1) := by
  have hp : printJson (Json.obj kvs) = ('{' :: printMembers kvs) ++ ['}'] := rfl
  have hfind : findIdxC (fun c => c = '{') (('{' :: printMembers kvs) ++ ['}']) = some 0 := by
    rw [List.cons_append]
    exact findIdxC_cons_true _ _ _ (by decide)
  have hrfind : rfindIdxC (fun c => c = '}') (('{' :: printMembers kvs) ++ ['}']) =
      some ('{' :: printMembers kvs).length :=
    rfindIdxC_last _ _ _ (by decide)
  have hlen : ('{' :: printMembers kvs).length = (printMembers kvs).length + 1 := by simp
  rw [hlen] at hrfind
  unfold braceSpan
  rw [hp, hfind, hrfind]
  dsimp only
  rw [if_neg (by omega)]

theorem pySlice_full (s : List Char) (n : Nat) (h : s.length ≤ n + 1) : pySlice s 0 n = s := by
  unfold pySlice
  simp only [List.drop_zero, Nat.sub_zero]
  exact List.take_of_length_le (by omega)

theorem strictJson_print (kvs : JsonObj) (hwf : jsonWF (Json.obj kvs))
    (hnf : containsSub (printJson (Json.obj kvs)) fenceJson = false) :
    strictJson (printJson (Json.obj kvs)) = .ok (Json.obj kvs) := by
  have hsf := sliceFence_id _ hnf
  have hbs := braceSpan_print kvs
  have hlen : (printJson (Json.obj kvs)).length = (printMembers kvs).length + 2 := by
    have hp : printJson (Json.obj kvs) = '{' :: printMembers kvs ++ ['}'] := rfl
    rw [hp]; simp
  have hsl : pySlice (printJson (Json.obj kvs)) 0 ((printMembers kvs).length + 1) =
      printJson (Json.obj kvs) := pySlice_full _ _ (by omega)
  have hld := jsonLoads_print (Json.obj kvs) hwf
  unfold strictJson
  dsimp only
  rw [hsf, hbs]
  dsimp only
  rw [hsl, hld]

/-- Claim C9: for a raw text on which `_strict_json` succeeds, re-running the
extractor on the `json.dumps` re-serialization of the extracted mapping
succeeds with the identical mapping — provided that re-serialization contains
no markdown fence marker (the code-fence slicing otherwise destroys it). -/
theorem claimC9_extractor_roundtrip (s : List Char) (kvs : JsonObj)
    (h1 : strictJson s = Except.ok (Json.obj kvs))
    (h2 : containsSub (printJson (Json.obj kvs)) fenceJson = false) :
    strictJson (printJson (Json.obj kvs)) = Except.ok (Json.obj kvs) := by
  have hwf : jsonWF (Json.obj kvs) := by
    unfold strictJson at h1
    dsimp only at h1
    cases hb : braceSpan (sliceFence s) with
    | none => rw [hb] at h1; exact Except.noConfusion h1
    | some ij =>
      obtain ⟨i, j⟩ := ij
      rw [hb] at h1
      dsimp only at h1
      cases hj : jsonLoads (pySlice (sliceFence s) i j) with
      | some v =>
        rw [hj] at h1
        dsimp only at h1
        injection h1 with h'
        rw [← h']
        exact jsonLoads_WF _ _ hj
      | none =>
        rw [hj] at h1
        dsimp only at h1
        cases hj2 : jsonLoads (repairJson (pySlice (sliceFence s) i j)) with
        | some v =>
          rw [hj2] at h1
          dsimp only at h1
          injection h1 with h'
          rw [← h']
          exact jsonLoads_WF _ _ hj2
        | none =>
          rw [hj2] at h1
          exact Except.noConfusion h1
  exact strictJson_print kvs hwf h2

/-- The round-trip theorem instantiated on the mapping parsed from a plain
brace-delimited response. -/
theorem claimC9_witness :
    strictJson (printJson (Json.obj (JsonObj.cons ['k'] (Json.num false ['1'] none) JsonObj.nil))) =
      Except.ok (Json.obj (JsonObj.cons ['k'] (Json.num false ['1'] none) JsonObj.nil)) :=
  claimC9_extractor_roundtrip
    (printJson (Json.obj (JsonObj.cons ['k'] (Json.num false ['1'] none) JsonObj.nil)))
    (JsonObj.cons ['k'] (Json.num false ['1'] none) JsonObj.nil)
    (by rfl) (by rfl)

/-- Without the fence proviso the round-trip fails: `rawFence` extracts to the
mapping `mFence`, whose value holds a literal markdown fence, and re-running
the extractor on its re-serialization slices at that fence and reports that no
JSON was found. -/
theorem claimC9_counterexample :
    strictJson rawFence = Except.ok mFence ∧
      strictJson (printJson mFence) = Except.error noJsonMsg :=
  ⟨rfl, rfl⟩
